import Mathlib

/-!
Shallow embedding of the `decomp` control-flow restructuring library
(`src/cfg`, `src/cfa`, `src/cfr`, `src/util/unique_vec.rs`) together with
theorems checking the natural-language specification against it.

Modelling conventions:
* `llvm_ir::Name` becomes the inductive `Decomp.Name` (a string name or a
  numeric id, exactly the two variants the crate uses).
* `UniqueVec<T>` is a `List` together with the insert-if-absent operation
  `uinsert` and first-occurrence removal `List.erase`.
* `HashMap<CFGNode, UniqueVec<CFGNode>>` becomes an association list
  `AdjMap`; lookup finds the first matching key.  The Rust code never
  observes hash-iteration order (it only mutates every entry pointwise),
  so this is faithful.
* Unbounded `loop`/recursion (`create_temporary_node`'s retry loop,
  `dominates_inner`, the `find_all` driver loop and `CFRGroups::handle`)
  take an explicit fuel argument; exhausting fuel yields a dedicated
  `stuck` value that corresponds to no Rust behaviour (the fuels used in
  concrete runs below are large enough that it is never produced).
* Rust panics (`unwrap`, `pop().unwrap()`) are modelled as explicit
  `panicked` result values, kept distinct from ordinary `Option` failure.
-/

namespace Decomp

/-- Model of `llvm_ir::Name`: a named or numbered identifier. -/
inductive Name where
  | name (s : String)
  | number (n : Nat)
deriving DecidableEq, Repr

/-- Model of `CFGNode` (src/cfg/node.rs): identity is the pair
`(from_pred, to_succ)`. -/
structure CFGNode where
  from_pred : Name
  to_succ : Name
deriving DecidableEq, Repr

/-- `impl Into<CFGNode> for &Name`: a fresh node from a single name has both
halves equal. -/
def nodeOf (nm : Name) : CFGNode := ⟨nm, nm⟩

/-- `UniqueVec::insert`: push iff absent (src/util/unique_vec.rs). -/
def uinsert (l : List CFGNode) (x : CFGNode) : List CFGNode :=
  if x ∈ l then l else l ++ [x]

/-- `UniqueVec::insert` at `Name` element type. -/
def uinsertName (l : List Name) (x : Name) : List Name :=
  if x ∈ l then l else l ++ [x]

/-- The adjacency maps of the CFG: `HashMap<CFGNode, UniqueVec<CFGNode>>`
modelled as an association list. -/
abbrev AdjMap : Type := List (CFGNode × List CFGNode)

/-- `HashMap::get`. -/
def alookup (m : AdjMap) (k : CFGNode) : Option (List CFGNode) :=
  match m with
  | [] => none
  | pr :: rest => if pr.1 = k then some pr.2 else alookup rest k

/-- `map.entry(k).or_insert_with(UniqueVec::new).insert(x)`: update the entry
for `k` (inserting the value into its unique-vec), creating it if absent. -/
def ainsert (m : AdjMap) (k : CFGNode) (x : CFGNode) : AdjMap :=
  match m with
  | [] => [(k, [x])]
  | pr :: rest => if pr.1 = k then (pr.1, uinsert pr.2 x) :: rest
                  else pr :: ainsert rest k x

/-- `HashMap::remove(k)`. -/
def aremoveKey (m : AdjMap) (k : CFGNode) : AdjMap :=
  m.filter (fun pr => decide (pr.1 ≠ k))

/-- `for (_, l) in &mut map { l.remove(&x); }`: drop `x` from every value. -/
def aeraseAll (m : AdjMap) (x : CFGNode) : AdjMap :=
  m.map (fun pr => (pr.1, pr.2.erase x))

/-- `if let Some(l) = map.get_mut(k) { l.remove(&x); }`: drop `x` from the
value at `k`, if that key is present. -/
def aeraseAt (m : AdjMap) (k : CFGNode) (x : CFGNode) : AdjMap :=
  match m with
  | [] => []
  | pr :: rest => if pr.1 = k then (pr.1, pr.2.erase x) :: rest
                  else pr :: aeraseAt rest k x

/-- Model of `ControlFlowGraph` (src/cfg/mod.rs). -/
structure ControlFlowGraph where
  entry : CFGNode
  nodes : List CFGNode
  preds : AdjMap
  succs : AdjMap
  temps : List Name
  next_temp : Nat
deriving DecidableEq, Repr

namespace ControlFlowGraph

/-- `ControlFlowGraph::add_edge`. -/
def addEdge (g : ControlFlowGraph) (fromN toN : CFGNode) : ControlFlowGraph :=
  { g with preds := ainsert g.preds toN fromN
           succs := ainsert g.succs fromN toN
           nodes := uinsert (uinsert g.nodes fromN) toN }

/-- `ControlFlowGraph::remove_node`. -/
def removeNode (g : ControlFlowGraph) (n : CFGNode) : ControlFlowGraph :=
  { g with nodes := g.nodes.erase n
           preds := aeraseAll (aremoveKey g.preds n) n
           succs := aeraseAll (aremoveKey g.succs n) n }

/-- `ControlFlowGraph::insert_node`. -/
def insertNode (g : ControlFlowGraph) (n afterN beforeN : CFGNode) :
    ControlFlowGraph :=
  let g1 := { g with succs := aeraseAt g.succs afterN beforeN }
  let g2 := { g1 with preds := aeraseAt g1.preds beforeN afterN }
  (g2.addEdge afterN n).addEdge n beforeN

end ControlFlowGraph

/-- `crate::MODULE_NAME` (`module_path!()` at the crate root). -/
def MODULE_NAME : String := "decomp"

/-- The generated temporary name `@<MODULE_NAME_UPPERCASED>_TEMPORARY_<n>`. -/
def tempName (n : Nat) : Name :=
  .name ("@" ++ MODULE_NAME.toUpper ++ "_TEMPORARY_" ++ Nat.repr n)

/-- The retry loop of `create_temporary_node`; `fuel` bounds the retries
(the Rust loop is unbounded, but `g.nodes` is finite). -/
def createTempGo : Nat → ControlFlowGraph → Option (Name × ControlFlowGraph)
  | 0, _ => none
  | fuel+1, g =>
    let nm := tempName g.next_temp
    let g1 := { g with next_temp := g.next_temp + 1 }
    if nodeOf nm ∈ g.nodes then createTempGo fuel g1
    else some (nm, { g1 with temps := uinsertName g1.temps nm })

/-- `ControlFlowGraph::create_temporary_node`: returns the fresh name and the
updated graph (counter bumped, name registered in `temps`). -/
def ControlFlowGraph.createTemporaryNode (g : ControlFlowGraph) :
    Option (Name × ControlFlowGraph) :=
  createTempGo (g.nodes.length + 1) g

/-- All nodes appearing in successor lists (used to bound the fuel of the
dominance search). -/
def succVals (g : ControlFlowGraph) : List CFGNode :=
  g.succs.foldr (fun pr acc => pr.2 ++ acc) []

/-- Fuel that suffices for `dominatesInner` to explore the whole graph. -/
def domFuel (g : ControlFlowGraph) : Nat := (succVals g).dedup.length + 1

/-- `ControlFlowGraph::dominates_inner`: the recursive check with the shared
visited list `checked`.  The loop over the successors is the fold; `to_` is
carried exactly as in the source (where it is never inspected). -/
def dominatesInner (g : ControlFlowGraph) (through to_ : CFGNode) :
    Nat → CFGNode → List CFGNode → Bool × List CFGNode
  | 0, _, checked => (false, checked)
  | fuel+1, atN, checked =>
    let checked2 := checked ++ [atN]
    match alookup g.succs atN with
    | none => (true, checked2)
    | some ss =>
      ss.foldl (fun acc s =>
        if !acc.1 then acc
        else if s ∈ acc.2 then acc
        else if s = through then acc
        else dominatesInner g through to_ fuel s acc.2) (true, checked2)

/-- `ControlFlowGraph::dominates`. -/
def ControlFlowGraph.dominates (g : ControlFlowGraph)
    (through to_ : CFGNode) : Bool :=
  if through = to_ then true
  else (dominatesInner g through to_ (domFuel g) g.entry []).1

/-- Model of `llvm_ir::Terminator` restricted to the fields the crate reads;
`other` stands for the six unsupported terminators, and `switch` keeps the
case destinations in source order (the case constants are never read). -/
inductive Terminator where
  | br (dest : Name)
  | condBr (true_dest false_dest : Name)
  | switch (dests : List Name) (default_dest : Name)
  | indirectBr (possible_dests : List Name)
  | ret
  | unreachable
  | other
deriving DecidableEq, Repr

/-- Model of `llvm_ir::BasicBlock` (name and terminator only). -/
structure BasicBlock where
  name : Name
  term : Terminator
deriving DecidableEq, Repr

/-- Model of `llvm_ir::Function` (ordered basic blocks only). -/
structure Function where
  basic_blocks : List BasicBlock
deriving DecidableEq, Repr

/-- The edges contributed by one block's terminator in
`ControlFlowGraph::new`. -/
def addTermEdges (g : ControlFlowGraph) (b : BasicBlock) : ControlFlowGraph :=
  match b.term with
  | .br dest => g.addEdge (nodeOf b.name) (nodeOf dest)
  | .condBr t f => (g.addEdge (nodeOf b.name) (nodeOf t)).addEdge
      (nodeOf b.name) (nodeOf f)
  | .switch dests default_dest =>
      (dests.foldl (fun g2 d => g2.addEdge (nodeOf b.name) (nodeOf d)) g).addEdge
        (nodeOf b.name) (nodeOf default_dest)
  | .indirectBr dests =>
      dests.foldl (fun g2 d => g2.addEdge (nodeOf b.name) (nodeOf d)) g
  | .ret => g
  | .unreachable => g
  | .other => g

/-- Is the terminator one the constructor accepts (everything but the six
fatal variants)? -/
def Terminator.supported : Terminator → Bool
  | .other => false
  | _ => true

/-- `ControlFlowGraph::new`: `none` models the two construction panics
(empty function: the `basic_blocks[0]` index panics; unsupported
terminator). -/
def ControlFlowGraph.new (f : Function) : Option ControlFlowGraph :=
  match f.basic_blocks with
  | [] => none
  | b0 :: _ =>
    if f.basic_blocks.all (fun b => b.term.supported) then
      some (f.basic_blocks.foldl addTermEdges
        { entry := nodeOf b0.name, nodes := [], preds := [], succs := [],
          temps := [], next_temp := 0 })
    else none

/-- `CFAPreconditionLoop` (src/cfa/prims/precondition_loop.rs). -/
structure CFAPreconditionLoop where
  cond : CFGNode
  body : CFGNode
  exit : CFGNode
deriving DecidableEq, Repr

/-- `CFAPostconditionLoop` (src/cfa/prims/postcondition_loop.rs). -/
structure CFAPostconditionLoop where
  cond : CFGNode
  exit : CFGNode
deriving DecidableEq, Repr

/-- `CFAOnewayConditional` (src/cfa/prims/oneway_conditional.rs). -/
structure CFAOnewayConditional where
  cond : CFGNode
  body : CFGNode
  exit : CFGNode
deriving DecidableEq, Repr

/-- `CFAOnewayReturnConditional`
(src/cfa/prims/oneway_return_conditional.rs). -/
structure CFAOnewayReturnConditional where
  cond : CFGNode
  body : CFGNode
  exit : CFGNode
deriving DecidableEq, Repr

/-- `CFATwowayConditional` (src/cfa/prims/twoway_conditional.rs). -/
structure CFATwowayConditional where
  cond : CFGNode
  body_a : CFGNode
  body_b : CFGNode
  exit : CFGNode
deriving DecidableEq, Repr

/-- `CFAStatementSequence` (src/cfa/prims/statement_sequence.rs). -/
structure CFAStatementSequence where
  entry : CFGNode
  exit : CFGNode
deriving DecidableEq, Repr

namespace CFAPreconditionLoop

/-- `CFAPreconditionLoop::is_valid`. -/
def isValid (g : ControlFlowGraph) (cond body exit : CFGNode) : Bool :=
  !(g.temps.contains cond.to_succ) &&
  !(g.temps.contains exit.from_pred) &&
  g.dominates cond body &&
  g.dominates cond exit &&
  (match alookup g.succs cond with
   | none => false
   | some cs => cs.length == 2 && cs.contains body && cs.contains exit) &&
  (match alookup g.preds body with
   | none => false
   | some bp => bp.length == 1) &&
  (match alookup g.succs body with
   | none => false
   | some bs => bs.length == 1 && bs.contains cond)

/-- One iteration of the `find_first` scan at candidate node `cond`. -/
def tryAt (g : ControlFlowGraph) (cond : CFGNode) :
    Option CFAPreconditionLoop :=
  match alookup g.succs cond with
  | some [a, b] =>
      if isValid g cond a b then some ⟨cond, a, b⟩
      else if isValid g cond b a then some ⟨cond, b, a⟩
      else none
  | _ => none

/-- `CFAPreconditionLoop::find_first`. -/
def findFirst (g : ControlFlowGraph) : Option CFAPreconditionLoop :=
  g.nodes.findSome? (tryAt g)

/-- `CFAPreconditionLoop::insert_needed_node` (fallible only through the
temp-name fuel). -/
def insertNeededNode (p : CFAPreconditionLoop) (g : ControlFlowGraph) :
    Option (CFAPreconditionLoop × ControlFlowGraph) :=
  if ((alookup g.preds p.exit).map List.length).getD 0 ≠ 1 then
    match g.createTemporaryNode with
    | none => none
    | some (t, g1) =>
      some ({ p with exit := nodeOf t }, g1.insertNode (nodeOf t) p.cond p.exit)
  else some (p, g)

end CFAPreconditionLoop

namespace CFAPostconditionLoop

/-- `CFAPostconditionLoop::is_valid`. -/
def isValid (g : ControlFlowGraph) (cond exit : CFGNode) : Bool :=
  !(g.temps.contains cond.to_succ) &&
  !(g.temps.contains exit.from_pred) &&
  g.dominates cond exit &&
  (match alookup g.succs cond with
   | none => false
   | some cs => cs.length == 2 && cs.contains cond && cs.contains exit)

/-- One iteration of the `find_first` scan at candidate node `cond`. -/
def tryAt (g : ControlFlowGraph) (cond : CFGNode) :
    Option CFAPostconditionLoop :=
  match alookup g.succs cond with
  | some [a, b] =>
      if isValid g cond a then some ⟨cond, a⟩
      else if isValid g cond b then some ⟨cond, b⟩
      else none
  | _ => none

/-- `CFAPostconditionLoop::find_first`. -/
def findFirst (g : ControlFlowGraph) : Option CFAPostconditionLoop :=
  g.nodes.findSome? (tryAt g)

/-- `CFAPostconditionLoop::insert_needed_node`. -/
def insertNeededNode (p : CFAPostconditionLoop) (g : ControlFlowGraph) :
    Option (CFAPostconditionLoop × ControlFlowGraph) :=
  if ((alookup g.preds p.exit).map List.length).getD 0 ≠ 1 then
    match g.createTemporaryNode with
    | none => none
    | some (t, g1) =>
      some ({ p with exit := nodeOf t }, g1.insertNode (nodeOf t) p.cond p.exit)
  else some (p, g)

end CFAPostconditionLoop

namespace CFAOnewayConditional

/-- `CFAOnewayConditional::is_valid`. -/
def isValid (g : ControlFlowGraph) (cond body exit : CFGNode) : Bool :=
  !(g.temps.contains cond.to_succ) &&
  !(g.temps.contains exit.from_pred) &&
  g.dominates cond body &&
  g.dominates cond exit &&
  ((alookup g.preds cond).getD []).all (fun p => g.dominates p cond) &&
  (match alookup g.succs cond with
   | none => false
   | some cs => cs.length == 2 && cs.contains body && cs.contains exit) &&
  (match alookup g.preds body with
   | none => false
   | some bp => bp.length == 1) &&
  (match alookup g.succs body with
   | none => false
   | some bs => bs.length == 1 && bs.contains exit)

/-- One iteration of the `find_first` scan at candidate node `cond`. -/
def tryAt (g : ControlFlowGraph) (cond : CFGNode) :
    Option CFAOnewayConditional :=
  match alookup g.succs cond with
  | some [a, b] =>
      if isValid g cond a b then some ⟨cond, a, b⟩
      else if isValid g cond b a then some ⟨cond, b, a⟩
      else none
  | _ => none

/-- `CFAOnewayConditional::find_first`. -/
def findFirst (g : ControlFlowGraph) : Option CFAOnewayConditional :=
  g.nodes.findSome? (tryAt g)

/-- `CFAOnewayConditional::insert_needed_node` (threshold 2; reroutes both
`cond` and `body` through the temporary). -/
def insertNeededNode (p : CFAOnewayConditional) (g : ControlFlowGraph) :
    Option (CFAOnewayConditional × ControlFlowGraph) :=
  if ((alookup g.preds p.exit).map List.length).getD 0 ≠ 2 then
    match g.createTemporaryNode with
    | none => none
    | some (t, g1) =>
      some ({ p with exit := nodeOf t },
        (g1.insertNode (nodeOf t) p.cond p.exit).insertNode
          (nodeOf t) p.body p.exit)
  else some (p, g)

end CFAOnewayConditional

namespace CFAOnewayReturnConditional

/-- `CFAOnewayReturnConditional::is_valid`. -/
def isValid (g : ControlFlowGraph) (cond body exit : CFGNode) : Bool :=
  !(g.temps.contains cond.to_succ) &&
  !(g.temps.contains exit.from_pred) &&
  g.dominates cond body &&
  g.dominates cond exit &&
  ((alookup g.preds cond).getD []).all (fun p => g.dominates p cond) &&
  (match alookup g.succs cond with
   | none => false
   | some cs => cs.length == 2 && cs.contains body && cs.contains exit) &&
  (match alookup g.preds body with
   | none => false
   | some bp => bp.length == 1) &&
  (match alookup g.succs body with
   | none => true
   | some bs => bs.length == 0) &&
  ((alookup g.preds cond).getD []).all (fun p => !(g.dominates cond p))

/-- One iteration of the `find_first` scan at candidate node `cond`. -/
def tryAt (g : ControlFlowGraph) (cond : CFGNode) :
    Option CFAOnewayReturnConditional :=
  match alookup g.succs cond with
  | some [a, b] =>
      if isValid g cond a b then some ⟨cond, a, b⟩
      else if isValid g cond b a then some ⟨cond, b, a⟩
      else none
  | _ => none

/-- `CFAOnewayReturnConditional::find_first`. -/
def findFirst (g : ControlFlowGraph) : Option CFAOnewayReturnConditional :=
  g.nodes.findSome? (tryAt g)

/-- `CFAOnewayReturnConditional::insert_needed_node`. -/
def insertNeededNode (p : CFAOnewayReturnConditional)
    (g : ControlFlowGraph) :
    Option (CFAOnewayReturnConditional × ControlFlowGraph) :=
  if ((alookup g.preds p.exit).map List.length).getD 0 ≠ 1 then
    match g.createTemporaryNode with
    | none => none
    | some (t, g1) =>
      some ({ p with exit := nodeOf t }, g1.insertNode (nodeOf t) p.cond p.exit)
  else some (p, g)

end CFAOnewayReturnConditional

namespace CFATwowayConditional

/-- `CFATwowayConditional::is_valid`. -/
def isValid (g : ControlFlowGraph) (cond body_a body_b exit : CFGNode) :
    Bool :=
  !(g.temps.contains cond.to_succ) &&
  !(g.temps.contains exit.from_pred) &&
  g.dominates cond body_a &&
  g.dominates cond body_b &&
  g.dominates cond exit &&
  ((alookup g.preds cond).getD []).all (fun p => g.dominates p cond) &&
  (match alookup g.succs cond with
   | none => false
   | some cs => cs.length == 2 && cs.contains body_a && cs.contains body_b) &&
  (match alookup g.preds body_a with
   | none => false
   | some ap => ap.length == 1) &&
  (match alookup g.succs body_a with
   | none => false
   | some as_ => as_.length == 1 && as_.contains exit) &&
  (match alookup g.preds body_b with
   | none => false
   | some bp => bp.length == 1) &&
  (match alookup g.succs body_b with
   | none => false
   | some bs => bs.length == 1 && bs.contains exit)

/-- The inner step of the `find_first` scan once the two successors `a`, `b`
of `cond` are in hand: the exit is read off `a`'s single successor and only
the iteration order `(a, b)` is validated. -/
def tryPair (g : ControlFlowGraph) (cond a b : CFGNode) :
    Option CFATwowayConditional :=
  match alookup g.succs a with
  | some [exitN] =>
      if isValid g cond a b exitN then some ⟨cond, a, b, exitN⟩ else none
  | _ => none

/-- One iteration of the `find_first` scan at candidate node `cond`. -/
def tryAt (g : ControlFlowGraph) (cond : CFGNode) :
    Option CFATwowayConditional :=
  match alookup g.succs cond with
  | some [a, b] => tryPair g cond a b
  | _ => none

/-- `CFATwowayConditional::find_first`. -/
def findFirst (g : ControlFlowGraph) : Option CFATwowayConditional :=
  g.nodes.findSome? (tryAt g)

/-- `CFATwowayConditional::insert_needed_node` (threshold 2; reroutes both
bodies through the temporary). -/
def insertNeededNode (p : CFATwowayConditional) (g : ControlFlowGraph) :
    Option (CFATwowayConditional × ControlFlowGraph) :=
  if ((alookup g.preds p.exit).map List.length).getD 0 ≠ 2 then
    match g.createTemporaryNode with
    | none => none
    | some (t, g1) =>
      some ({ p with exit := nodeOf t },
        (g1.insertNode (nodeOf t) p.body_a p.exit).insertNode
          (nodeOf t) p.body_b p.exit)
  else some (p, g)

end CFATwowayConditional

namespace CFAStatementSequence

/-- `CFAStatementSequence::is_valid`. -/
def isValid (g : ControlFlowGraph) (entry exit : CFGNode) : Bool :=
  !(g.temps.contains entry.to_succ) &&
  !(g.temps.contains exit.from_pred) &&
  g.dominates entry exit &&
  (match alookup g.succs entry with
   | none => false
   | some es => es.length == 1 && es.contains exit)

/-- One iteration of the `find_first` scan at candidate node `entry`. -/
def tryAt (g : ControlFlowGraph) (entry : CFGNode) :
    Option CFAStatementSequence :=
  match alookup g.succs entry with
  | some [e] => if isValid g entry e then some ⟨entry, e⟩ else none
  | _ => none

/-- `CFAStatementSequence::find_first`. -/
def findFirst (g : ControlFlowGraph) : Option CFAStatementSequence :=
  g.nodes.findSome? (tryAt g)

/-- `CFAStatementSequence::insert_needed_node`. -/
def insertNeededNode (p : CFAStatementSequence) (g : ControlFlowGraph) :
    Option (CFAStatementSequence × ControlFlowGraph) :=
  if ((alookup g.preds p.exit).map List.length).getD 0 ≠ 1 then
    match g.createTemporaryNode with
    | none => none
    | some (t, g1) =>
      some ({ p with exit := nodeOf t }, g1.insertNode (nodeOf t) p.entry p.exit)
  else some (p, g)

end CFAStatementSequence

/-- `CFAPrim` (src/cfa/mod.rs): the closed sum of the six primitives. -/
inductive CFAPrim where
  | preconditionLoop (p : CFAPreconditionLoop)
  | postconditionLoop (p : CFAPostconditionLoop)
  | onewayConditional (p : CFAOnewayConditional)
  | onewayReturnConditional (p : CFAOnewayReturnConditional)
  | twowayConditional (p : CFATwowayConditional)
  | statementSequence (p : CFAStatementSequence)
deriving DecidableEq, Repr

namespace CFAPrim

/-- `CFAPrim::find_first`: the fixed priority order of the six matchers. -/
def findFirst (g : ControlFlowGraph) : Option CFAPrim :=
  match CFAPreconditionLoop.findFirst g with
  | some p => some (.preconditionLoop p)
  | none =>
  match CFAPostconditionLoop.findFirst g with
  | some p => some (.postconditionLoop p)
  | none =>
  match CFAOnewayConditional.findFirst g with
  | some p => some (.onewayConditional p)
  | none =>
  match CFAOnewayReturnConditional.findFirst g with
  | some p => some (.onewayReturnConditional p)
  | none =>
  match CFATwowayConditional.findFirst g with
  | some p => some (.twowayConditional p)
  | none =>
  match CFAStatementSequence.findFirst g with
  | some p => some (.statementSequence p)
  | none => none

/-- `CFAPrim::entry`. -/
def entry : CFAPrim → CFGNode
  | .preconditionLoop p => p.cond
  | .postconditionLoop p => p.cond
  | .onewayConditional p => p.cond
  | .onewayReturnConditional p => p.cond
  | .twowayConditional p => p.cond
  | .statementSequence p => p.entry

/-- `CFAPrim::exit`. -/
def exit : CFAPrim → CFGNode
  | .preconditionLoop p => p.exit
  | .postconditionLoop p => p.exit
  | .onewayConditional p => p.exit
  | .onewayReturnConditional p => p.exit
  | .twowayConditional p => p.exit
  | .statementSequence p => p.exit

/-- `CFAPrim::nodes`. -/
def nodesList : CFAPrim → List CFGNode
  | .preconditionLoop p => [p.cond, p.body, p.exit]
  | .postconditionLoop p => [p.cond, p.exit]
  | .onewayConditional p => [p.cond, p.body, p.exit]
  | .onewayReturnConditional p => [p.cond, p.body, p.exit]
  | .twowayConditional p => [p.cond, p.body_a, p.body_b, p.exit]
  | .statementSequence p => [p.entry, p.exit]

/-- The per-variant fix-up dispatch at the top of `CFAPrim::merge`. -/
def insertNeededNode (p : CFAPrim) (g : ControlFlowGraph) :
    Option (CFAPrim × ControlFlowGraph) :=
  match p with
  | .preconditionLoop q => (q.insertNeededNode g).map
      (fun r => (.preconditionLoop r.1, r.2))
  | .postconditionLoop q => (q.insertNeededNode g).map
      (fun r => (.postconditionLoop r.1, r.2))
  | .onewayConditional q => (q.insertNeededNode g).map
      (fun r => (.onewayConditional r.1, r.2))
  | .onewayReturnConditional q => (q.insertNeededNode g).map
      (fun r => (.onewayReturnConditional r.1, r.2))
  | .twowayConditional q => (q.insertNeededNode g).map
      (fun r => (.twowayConditional r.1, r.2))
  | .statementSequence q => (q.insertNeededNode g).map
      (fun r => (.statementSequence r.1, r.2))

/-- The part of `CFAPrim::merge` (src/cfa/merge.rs) after the fix-up call:
snapshot the neighbourhood, remove the constituent nodes, synthesise the
meta-node and reconnect the external edges. -/
def mergeCore (p : CFAPrim) (g : ControlFlowGraph) : ControlFlowGraph :=
  let entry := p.entry
  let exit := p.exit
  let nodes := p.nodesList
  let isRootNode := entry = g.entry
  let entryPreds := alookup g.preds entry
  let exitSuccs := alookup g.succs exit
  let g1 := nodes.foldl (fun g2 n => g2.removeNode n) g
  let newNode : CFGNode := ⟨entry.from_pred, exit.to_succ⟩
  let g2 := match entryPreds with
    | none => g1
    | some ps => ps.foldl (fun g3 p2 =>
        if p2 ∈ nodes then g3 else g3.addEdge p2 newNode) g1
  let g3 := match exitSuccs with
    | none => g2
    | some ss => ss.foldl (fun g4 s =>
        if s ∈ nodes then g4 else g4.addEdge newNode s) g2
  if isRootNode then { g3 with entry := newNode } else g3

/-- `CFAPrim::merge`: fix-up, then the merge proper.  Returns the mutated
primitive (its `exit` may have been redirected to a temporary) and the new
graph. -/
def merge (p : CFAPrim) (g : ControlFlowGraph) :
    Option (CFAPrim × ControlFlowGraph) :=
  match p.insertNeededNode g with
  | none => none
  | some (p1, g1) => some (p1, p1.mergeCore g1)

end CFAPrim

/-- `CFAPrims` (src/cfa/mod.rs): the bundle returned by `find_all`. -/
structure CFAPrims where
  entry : CFGNode
  temps : List Name
  prims : List CFAPrim
deriving DecidableEq, Repr

/-- Outcome of running a fallible/potentially-panicking Rust routine:
`ok` a returned value, `panicked` an `unwrap` panic, `stuck` is the
model-only fuel-exhaustion artifact. -/
inductive RunResult (α : Type) where
  | ok (val : α)
  | panicked
  | stuck
deriving DecidableEq, Repr

/-- The `find_all` driver loop (src/cfa/mod.rs lines 50-63), also exposing
the residual graph at loop exit.  `panicked` models the
`find_first(&mut cfg).unwrap()` panic on an irreducible graph. -/
def CFAPrim.findAllAux :
    Nat → ControlFlowGraph → List CFAPrim →
    RunResult (CFAPrims × ControlFlowGraph)
  | 0, _, _ => .stuck
  | fuel+1, g, acc =>
    if g.nodes.length > 1 then
      match CFAPrim.findFirst g with
      | none => .panicked
      | some p =>
        match p.merge g with
        | none => .stuck
        | some (p1, g1) => CFAPrim.findAllAux fuel g1 (acc ++ [p1])
    else .ok (⟨g.entry, g.temps, acc⟩, g)

/-- `CFAPrim::find_all` (the bundle part of the driver). -/
def CFAPrim.findAll (fuel : Nat) (g : ControlFlowGraph) :
    RunResult CFAPrims :=
  match CFAPrim.findAllAux fuel g [] with
  | .ok (b, _) => .ok b
  | .panicked => .panicked
  | .stuck => .stuck

/-- `CFRGroup` (src/cfr/mod.rs); the `CFRGroups` wrapper around `Vec` is
flattened to a plain `List CFRGroup`. -/
inductive CFRGroup where
  | block (nm : Name)
  | preconditionLoop (cond body : List CFRGroup)
  | postconditionLoop (cond : List CFRGroup)
  | onewayConditional (cond body : List CFRGroup)
  | onewayReturnConditional (cond body : List CFRGroup)
  | twowayConditional (cond body_true body_false : List CFRGroup)
deriving Repr

/-- Outcome of `CFRGroups::handle`: `ok` a group list, `failed` the `None`
return, `panicked` the `groups.pop().unwrap()` panic on an empty list,
`stuck` the model-only fuel artifact. -/
inductive HandleResult where
  | ok (groups : List CFRGroup)
  | failed
  | panicked
  | stuck
deriving Repr

/-- Short-circuiting sequencing for `HandleResult`. -/
def hBind (r : HandleResult) (f : List CFRGroup → HandleResult) :
    HandleResult :=
  match r with
  | .ok gs => f gs
  | .failed => .failed
  | .panicked => .panicked
  | .stuck => .stuck

/-- `CFRGroups::handle` (src/cfr/mod.rs lines 96-170). -/
def handle (prims : CFAPrims) : Nat → CFGNode → HandleResult
  | 0, _ => .stuck
  | fuel+1, atN =>
    match prims.prims.find? (fun p =>
        p.entry.from_pred == atN.from_pred &&
        p.exit.to_succ == atN.to_succ) with
    | some (.preconditionLoop pl) =>
        hBind (handle prims fuel pl.cond) fun gc =>
        hBind (handle prims fuel pl.body) fun gb =>
        hBind (handle prims fuel pl.exit) fun ge =>
        .ok (CFRGroup.preconditionLoop gc gb :: ge)
    | some (.postconditionLoop pl) =>
        hBind (handle prims fuel pl.cond) fun gc =>
        hBind (handle prims fuel pl.exit) fun ge =>
        .ok (CFRGroup.postconditionLoop gc :: ge)
    | some (.onewayConditional oc) =>
        hBind (handle prims fuel oc.cond) fun out =>
        match out.getLast? with
        | none => .panicked
        | some condG =>
          hBind (handle prims fuel oc.body) fun gb =>
          hBind (handle prims fuel oc.exit) fun ge =>
          .ok (out.dropLast ++ CFRGroup.onewayConditional [condG] gb :: ge)
    | some (.onewayReturnConditional oc) =>
        hBind (handle prims fuel oc.cond) fun out =>
        match out.getLast? with
        | none => .panicked
        | some condG =>
          hBind (handle prims fuel oc.body) fun gb =>
          hBind (handle prims fuel oc.exit) fun ge =>
          .ok (out.dropLast ++ CFRGroup.onewayReturnConditional [condG] gb :: ge)
    | some (.twowayConditional tc) =>
        hBind (handle prims fuel tc.cond) fun out =>
        match out.getLast? with
        | none => .panicked
        | some condG =>
          hBind (handle prims fuel tc.body_a) fun ga =>
          hBind (handle prims fuel tc.body_b) fun gb =>
          hBind (handle prims fuel tc.exit) fun ge =>
          .ok (out.dropLast ++ CFRGroup.twowayConditional [condG] ga gb :: ge)
    | some (.statementSequence ss) =>
        hBind (handle prims fuel ss.entry) fun ge =>
        hBind (handle prims fuel ss.exit) fun gx =>
        .ok (ge ++ gx)
    | none =>
        if atN.from_pred = atN.to_succ then
          .ok (if prims.temps.contains atN.from_pred then []
               else [CFRGroup.block atN.from_pred])
        else .failed

/-- `CFRGroups::new`. -/
def CFRGroups.new (fuel : Nat) (prims : CFAPrims) : HandleResult :=
  handle prims fuel prims.entry

/-! ### Derived views and invariant predicates -/

/-- The successor list of a node (empty when the key is absent). -/
def succsOf (g : ControlFlowGraph) (u : CFGNode) : List CFGNode :=
  (alookup g.succs u).getD []

/-- The predecessor list of a node (empty when the key is absent). -/
def predsOf (g : ControlFlowGraph) (v : CFGNode) : List CFGNode :=
  (alookup g.preds v).getD []

/-- The adjacency-consistency invariant of the spec:
`v ∈ succs[u] ⇔ u ∈ preds[v]`. -/
def Consistent (g : ControlFlowGraph) : Prop :=
  ∀ u v : CFGNode, v ∈ succsOf g u ↔ u ∈ predsOf g v

/-- Every adjacency list is duplicate-free (`UniqueVec` discipline). -/
def AdjNodup (g : ControlFlowGraph) : Prop :=
  (∀ k, (predsOf g k).Nodup) ∧ (∀ k, (succsOf g k).Nodup)

/-- Every adjacency key is a registered node. -/
def KeysSubNodes (g : ControlFlowGraph) : Prop :=
  (∀ pr ∈ g.preds, pr.1 ∈ g.nodes) ∧ (∀ pr ∈ g.succs, pr.1 ∈ g.nodes)

/-- Every adjacency list element is a registered node. -/
def ValuesSubNodes (g : ControlFlowGraph) : Prop :=
  (∀ pr ∈ g.preds, ∀ x ∈ pr.2, x ∈ g.nodes) ∧
  (∀ pr ∈ g.succs, ∀ x ∈ pr.2, x ∈ g.nodes)

/-- The three public mutators of the graph, as a reified operation for
stating invariant preservation over arbitrary operation sequences. -/
inductive CFGOp where
  | addEdge (u v : CFGNode)
  | removeNode (n : CFGNode)
  | insertNode (n a b : CFGNode)
deriving DecidableEq, Repr

/-- Apply one reified operation. -/
def applyOp (g : ControlFlowGraph) : CFGOp → ControlFlowGraph
  | .addEdge u v => g.addEdge u v
  | .removeNode n => g.removeNode n
  | .insertNode n a b => g.insertNode n a b

/-- Apply a sequence of reified operations. -/
def applyOps (g : ControlFlowGraph) (ops : List CFGOp) : ControlFlowGraph :=
  ops.foldl applyOp g

/-- Modelled from the spec: `u → v` is an edge of the graph. -/
def EdgeProp (g : ControlFlowGraph) (u v : CFGNode) : Prop :=
  v ∈ succsOf g u

/-- Modelled from the spec: classical dominance — every path (a chain of
edges) that starts at the CFG entry and ends at `to_` passes through
`through`.  This is the reference meaning of `dominates` against which the
implementation is compared. -/
def DominatesSpec (g : ControlFlowGraph) (through to_ : CFGNode) : Prop :=
  ∀ p : List CFGNode, p.head? = some g.entry → p.getLast? = some to_ →
    List.Chain' (EdgeProp g) p → through ∈ p

/-- The number of distinct successor-list nodes not yet on the visited
list; the quantity that shrinks at every recursive step of
`dominates_inner` and justifies the fuel bound `domFuel`. -/
def unvisitedCount (g : ControlFlowGraph) (checked : List CFGNode) : Nat :=
  ((succVals g).dedup.filter (fun x => decide (x ∉ checked))).length

/-- Modelled from the spec: one ordering trial of the two-way conditional
matcher — take `x` as the true-branch body, read the exit off `x`'s single
successor, and validate. -/
def CFATwowayConditional.tryOrder (g : ControlFlowGraph)
    (cond x y : CFGNode) : Option CFATwowayConditional :=
  match alookup g.succs x with
  | some [e] =>
      if CFATwowayConditional.isValid g cond x y e then some ⟨cond, x, y, e⟩
      else none
  | _ => none

/-- Modelled from the spec: the two-way conditional matcher that "tries both
orderings (A,B) and (B,A) of the two successors and accepts the first that
validates", A-first winning. -/
def CFATwowayConditional.tryAtSpec (g : ControlFlowGraph) (cond : CFGNode) :
    Option CFATwowayConditional :=
  match alookup g.succs cond with
  | some [a, b] =>
      match CFATwowayConditional.tryOrder g cond a b with
      | some p => some p
      | none => CFATwowayConditional.tryOrder g cond b a
  | _ => none

/-- Modelled from the spec: `find_first` over the both-orderings matcher. -/
def CFATwowayConditional.findFirstSpec (g : ControlFlowGraph) :
    Option CFATwowayConditional :=
  g.nodes.findSome? (CFATwowayConditional.tryAtSpec g)

/-- Modelled from the spec: one ordering trial of the precondition-loop
matcher — the first element of the ordering is taken as the body, the
second as the exit, then validated. -/
def CFAPreconditionLoop.tryOrder (g : ControlFlowGraph)
    (cond x y : CFGNode) : Option CFAPreconditionLoop :=
  if CFAPreconditionLoop.isValid g cond x y then some ⟨cond, x, y⟩ else none

/-- Modelled from the spec: the precondition-loop matcher that tries both
orderings (A,B) and (B,A) of the two successors, A-first winning. -/
def CFAPreconditionLoop.tryAtSpec (g : ControlFlowGraph) (cond : CFGNode) :
    Option CFAPreconditionLoop :=
  match alookup g.succs cond with
  | some [a, b] =>
      match CFAPreconditionLoop.tryOrder g cond a b with
      | some p => some p
      | none => CFAPreconditionLoop.tryOrder g cond b a
  | _ => none

/-- Modelled from the spec: `find_first` over the both-orderings
precondition-loop matcher. -/
def CFAPreconditionLoop.findFirstSpec (g : ControlFlowGraph) :
    Option CFAPreconditionLoop :=
  g.nodes.findSome? (CFAPreconditionLoop.tryAtSpec g)

/-- Modelled from the spec: one ordering trial of the postcondition-loop
matcher — the first element of the ordering is taken as the exit (the other
successor's role is fixed: it must be `cond` itself), then validated. -/
def CFAPostconditionLoop.tryOrder (g : ControlFlowGraph)
    (cond x _y : CFGNode) : Option CFAPostconditionLoop :=
  if CFAPostconditionLoop.isValid g cond x then some ⟨cond, x⟩ else none

/-- Modelled from the spec: the postcondition-loop matcher that tries both
orderings (A,B) and (B,A) of the two successors, A-first winning. -/
def CFAPostconditionLoop.tryAtSpec (g : ControlFlowGraph) (cond : CFGNode) :
    Option CFAPostconditionLoop :=
  match alookup g.succs cond with
  | some [a, b] =>
      match CFAPostconditionLoop.tryOrder g cond a b with
      | some p => some p
      | none => CFAPostconditionLoop.tryOrder g cond b a
  | _ => none

/-- Modelled from the spec: `find_first` over the both-orderings
postcondition-loop matcher. -/
def CFAPostconditionLoop.findFirstSpec (g : ControlFlowGraph) :
    Option CFAPostconditionLoop :=
  g.nodes.findSome? (CFAPostconditionLoop.tryAtSpec g)

/-- Modelled from the spec: one ordering trial of the one-way conditional
matcher — the first element of the ordering is taken as the body, the
second as the exit, then validated. -/
def CFAOnewayConditional.tryOrder (g : ControlFlowGraph)
    (cond x y : CFGNode) : Option CFAOnewayConditional :=
  if CFAOnewayConditional.isValid g cond x y then some ⟨cond, x, y⟩ else none

/-- Modelled from the spec: the one-way conditional matcher that tries both
orderings (A,B) and (B,A) of the two successors, A-first winning. -/
def CFAOnewayConditional.tryAtSpec (g : ControlFlowGraph) (cond : CFGNode) :
    Option CFAOnewayConditional :=
  match alookup g.succs cond with
  | some [a, b] =>
      match CFAOnewayConditional.tryOrder g cond a b with
      | some p => some p
      | none => CFAOnewayConditional.tryOrder g cond b a
  | _ => none

/-- Modelled from the spec: `find_first` over the both-orderings one-way
conditional matcher. -/
def CFAOnewayConditional.findFirstSpec (g : ControlFlowGraph) :
    Option CFAOnewayConditional :=
  g.nodes.findSome? (CFAOnewayConditional.tryAtSpec g)

/-- Modelled from the spec: one ordering trial of the one-way return
conditional matcher — the first element of the ordering is taken as the
body, the second as the exit, then validated. -/
def CFAOnewayReturnConditional.tryOrder (g : ControlFlowGraph)
    (cond x y : CFGNode) : Option CFAOnewayReturnConditional :=
  if CFAOnewayReturnConditional.isValid g cond x y then some ⟨cond, x, y⟩
  else none

/-- Modelled from the spec: the one-way return conditional matcher that
tries both orderings (A,B) and (B,A) of the two successors, A-first
winning. -/
def CFAOnewayReturnConditional.tryAtSpec (g : ControlFlowGraph)
    (cond : CFGNode) : Option CFAOnewayReturnConditional :=
  match alookup g.succs cond with
  | some [a, b] =>
      match CFAOnewayReturnConditional.tryOrder g cond a b with
      | some p => some p
      | none => CFAOnewayReturnConditional.tryOrder g cond b a
  | _ => none

/-- Modelled from the spec: `find_first` over the both-orderings one-way
return conditional matcher. -/
def CFAOnewayReturnConditional.findFirstSpec (g : ControlFlowGraph) :
    Option CFAOnewayReturnConditional :=
  g.nodes.findSome? (CFAOnewayReturnConditional.tryAtSpec g)

/-! ### Concrete inputs used by the seed-scenario and bug-witness claims -/

/-- Block name `b1`. -/
def nmB1 : Name := .name "b1"
/-- Block name `b2`. -/
def nmB2 : Name := .name "b2"
/-- Block name `b3`. -/
def nmB3 : Name := .name "b3"
/-- Block name `b4`. -/
def nmB4 : Name := .name "b4"
/-- Block name `e`. -/
def nmE : Name := .name "e"
/-- Block name `a`. -/
def nmA : Name := .name "a"
/-- Block name `b`. -/
def nmB : Name := .name "b"
/-- Block name `c`. -/
def nmC : Name := .name "c"

/-- A default graph used only to unwrap `Option` results of concrete
constructions that are separately proved to be `some`. -/
def defaultCFG : ControlFlowGraph :=
  ⟨nodeOf nmB1, [], [], [], [], 0⟩

/-- The linear seed scenario: `b1 → b2 → b3 → ret`. -/
def linearFunction : Function :=
  ⟨[⟨nmB1, .br nmB2⟩, ⟨nmB2, .br nmB3⟩, ⟨nmB3, .ret⟩]⟩

/-- The CFG of the linear seed scenario. -/
def linearCFG : ControlFlowGraph :=
  (ControlFlowGraph.new linearFunction).getD defaultCFG

/-- The bundle `find_all` produces on the linear scenario: two (not three)
statement-sequence merges. -/
def linearBundle : CFAPrims :=
  ⟨⟨nmB1, nmB3⟩, [],
   [.statementSequence ⟨nodeOf nmB1, nodeOf nmB2⟩,
    .statementSequence ⟨⟨nmB1, nmB2⟩, nodeOf nmB3⟩]⟩

/-- The residual CFG after `find_all` on the linear scenario: zero nodes. -/
def linearResidualCFG : ControlFlowGraph :=
  ⟨⟨nmB1, nmB3⟩, [], [], [], [], 0⟩

/-- The intermediate CFG of the linear run after its first merge (nodes
`b3` and the meta-node `(b1…b2)`). -/
def linearMidCFG : ControlFlowGraph :=
  ⟨⟨nmB1, nmB2⟩,
   [nodeOf nmB3, ⟨nmB1, nmB2⟩],
   [(nodeOf nmB3, [⟨nmB1, nmB2⟩])],
   [(⟨nmB1, nmB2⟩, [nodeOf nmB3])],
   [], 0⟩

/-- The primitive the driver picks on `linearMidCFG`: the final
statement-sequence whose merge leaves the graph empty. -/
def linearMidPrim : CFAPrim :=
  .statementSequence ⟨⟨nmB1, nmB2⟩, nodeOf nmB3⟩

/-- A two-branch graph `e → a, e → b` (then both return): `a` does not
dominate `b` under the classical definition. -/
def diamondFunction : Function :=
  ⟨[⟨nmE, .condBr nmA nmB⟩, ⟨nmA, .ret⟩, ⟨nmB, .ret⟩]⟩

/-- The CFG of the two-branch scenario. -/
def diamondCFG : ControlFlowGraph :=
  (ControlFlowGraph.new diamondFunction).getD defaultCFG

/-- An irreducible input: a `switch` gives the entry three successors, which
no primitive matches. -/
def switchFunction : Function :=
  ⟨[⟨nmE, .switch [nmA, nmB] nmC⟩, ⟨nmA, .ret⟩, ⟨nmB, .ret⟩, ⟨nmC, .ret⟩]⟩

/-- The CFG of the irreducible `switch` scenario. -/
def switchCFG : ControlFlowGraph :=
  (ControlFlowGraph.new switchFunction).getD defaultCFG

/-- The while-loop seed scenario: `b1→b2, b2→b3|b4, b3→b2, b4 ret`. -/
def whileFunction : Function :=
  ⟨[⟨nmB1, .br nmB2⟩, ⟨nmB2, .condBr nmB3 nmB4⟩, ⟨nmB3, .br nmB2⟩,
    ⟨nmB4, .ret⟩]⟩

/-- The CFG of the while-loop scenario. -/
def whileCFG : ControlFlowGraph :=
  (ControlFlowGraph.new whileFunction).getD defaultCFG

/-- An empty bundle rooted at `b1`, used to exercise the leaf cases of
`CFRGroups::handle`. -/
def emptyBundle : CFAPrims := ⟨nodeOf nmB1, [], []⟩

/-! ### Helper lemmas about the container operations -/

theorem mem_uinsert {l : List CFGNode} {x y : CFGNode} :
    y ∈ uinsert l x ↔ y ∈ l ∨ y = x := by
  unfold uinsert
  split
  · constructor
    · exact Or.inl
    · rintro (h | rfl)
      · exact h
      · assumption
  · simp

theorem nodup_uinsert {l : List CFGNode} {x : CFGNode} (h : l.Nodup) :
    (uinsert l x).Nodup := by
  unfold uinsert
  split
  · exact h
  · simp [List.nodup_append, h, *]

theorem alookup_mem {m : AdjMap} {k : CFGNode} {l : List CFGNode}
    (h : alookup m k = some l) : (k, l) ∈ m := by
  induction m with
  | nil => simp [alookup] at h
  | cons pr rest ih =>
    simp only [alookup] at h
    split at h
    · obtain ⟨rfl⟩ := h
      rename_i heq
      exact List.mem_cons.2 (Or.inl (by cases pr; simp_all))
    · exact List.mem_cons.2 (Or.inr (ih h))

theorem alookup_ainsert (m : AdjMap) (k x k2 : CFGNode) :
    alookup (ainsert m k x) k2 =
      if k2 = k then some (uinsert ((alookup m k).getD []) x)
      else alookup m k2 := by
  induction m with
  | nil =>
    simp only [ainsert, alookup]
    by_cases h : k2 = k
    · subst h; simp [uinsert]
    · rw [if_neg (fun hh => h hh.symm), if_neg h]
  | cons pr rest ih =>
    obtain ⟨pk, pv⟩ := pr
    simp only [ainsert, alookup]
    by_cases h1 : pk = k <;> by_cases h2 : pk = k2 <;>
      by_cases h3 : k2 = k <;> simp_all [alookup]

theorem alookup_aremoveKey (m : AdjMap) (k k2 : CFGNode) :
    alookup (aremoveKey m k) k2 = if k2 = k then none else alookup m k2 := by
  induction m with
  | nil => simp [aremoveKey, alookup]
  | cons pr rest ih =>
    obtain ⟨pk, pv⟩ := pr
    simp only [aremoveKey, List.filter_cons] at *
    by_cases h1 : pk = k <;> by_cases h2 : pk = k2 <;>
      by_cases h3 : k2 = k <;> simp_all [alookup]

theorem alookup_aeraseAll (m : AdjMap) (x k : CFGNode) :
    alookup (aeraseAll m x) k = (alookup m k).map (fun l => l.erase x) := by
  induction m with
  | nil => simp [aeraseAll, alookup]
  | cons pr rest ih =>
    obtain ⟨pk, pv⟩ := pr
    simp only [aeraseAll, List.map, alookup] at *
    by_cases h : pk = k <;> simp_all

theorem alookup_aeraseAt (m : AdjMap) (k x k2 : CFGNode) :
    alookup (aeraseAt m k x) k2 =
      if k2 = k then (alookup m k).map (fun l => l.erase x)
      else alookup m k2 := by
  induction m with
  | nil => simp [aeraseAt, alookup]
  | cons pr rest ih =>
    obtain ⟨pk, pv⟩ := pr
    simp only [aeraseAt, alookup]
    by_cases h1 : pk = k <;> by_cases h2 : pk = k2 <;>
      by_cases h3 : k2 = k <;> simp_all [alookup]

theorem exists_of_findSome? {α β : Type} {l : List α} {f : α → Option β}
    {b : β} (h : l.findSome? f = some b) : ∃ a, a ∈ l ∧ f a = some b := by
  induction l with
  | nil => simp [List.findSome?] at h
  | cons x rest ih =>
    rw [List.findSome?_cons] at h
    cases hfx : f x with
    | some bx =>
      rw [hfx] at h
      cases h
      exact ⟨x, List.mem_cons_self x rest, hfx⟩
    | none =>
      rw [hfx] at h
      obtain ⟨a, ha, hfa⟩ := ih h
      exact ⟨a, List.mem_cons_of_mem x ha, hfa⟩

theorem createTempGo_spec :
    ∀ (fuel : Nat) (g : ControlFlowGraph) (t : Name)
      (g2 : ControlFlowGraph), createTempGo fuel g = some (t, g2) →
      nodeOf t ∉ g.nodes ∧ g2.entry = g.entry ∧ g2.nodes = g.nodes ∧
      g2.preds = g.preds ∧ g2.succs = g.succs := by
  intro fuel
  induction fuel with
  | zero => intro g t g2 h; simp [createTempGo] at h
  | succ f ih =>
    intro g t g2 h
    simp only [createTempGo] at h
    split at h
    · obtain ⟨a1, a2, a3, a4, a5⟩ := ih _ _ _ h
      exact ⟨a1, a2, a3, a4, a5⟩
    · rename_i hmem
      obtain ⟨rfl, rfl⟩ := h
      exact ⟨hmem, rfl, rfl, rfl, rfl⟩

/-! ### Entry preservation through the driver -/

theorem addEdge_entry (g : ControlFlowGraph) (u v : CFGNode) :
    (g.addEdge u v).entry = g.entry := rfl

theorem removeNode_entry (g : ControlFlowGraph) (n : CFGNode) :
    (g.removeNode n).entry = g.entry := rfl

theorem insertNode_entry (g : ControlFlowGraph) (n a b : CFGNode) :
    (g.insertNode n a b).entry = g.entry := rfl

theorem foldl_entry_eq {α : Type} (f : ControlFlowGraph → α → ControlFlowGraph)
    (hf : ∀ g x, (f g x).entry = g.entry) :
    ∀ (l : List α) (g : ControlFlowGraph), (l.foldl f g).entry = g.entry := by
  intro l
  induction l with
  | nil => intro g; rfl
  | cons x rest ih => intro g; rw [List.foldl_cons, ih, hf]

theorem addTermEdges_entry (g : ControlFlowGraph) (b : BasicBlock) :
    (addTermEdges g b).entry = g.entry := by
  cases hbt : b.term <;> simp only [addTermEdges, hbt] <;> try rfl
  case switch dests dd =>
    exact foldl_entry_eq
      (fun g2 d => g2.addEdge (nodeOf b.name) (nodeOf d))
      (fun g2 d => rfl) dests g
  case indirectBr dests =>
    exact foldl_entry_eq
      (fun g2 d => g2.addEdge (nodeOf b.name) (nodeOf d))
      (fun g2 d => rfl) dests g

theorem new_entry {f : Function} {b0 : BasicBlock} {g : ControlFlowGraph}
    (hb0 : f.basic_blocks.head? = some b0)
    (hnew : ControlFlowGraph.new f = some g) : g.entry = nodeOf b0.name := by
  unfold ControlFlowGraph.new at hnew
  split at hnew
  · cases hnew
  · rename_i c0 rest hbb
    split at hnew
    · cases hnew
      rw [hbb] at hb0
      simp only [List.head?] at hb0
      cases hb0
      exact foldl_entry_eq addTermEdges addTermEdges_entry _ _
    · cases hnew

theorem preconditionLoop_inn_entry {q : CFAPreconditionLoop}
    {g : ControlFlowGraph} {q1 g1}
    (h : q.insertNeededNode g = some (q1, g1)) :
    g1.entry = g.entry ∧ q1.cond = q.cond := by
  unfold CFAPreconditionLoop.insertNeededNode at h
  split at h
  · cases hct : g.createTemporaryNode with
    | none => rw [hct] at h; cases h
    | some tg =>
      rw [hct] at h
      obtain ⟨t, gT⟩ := tg
      cases h
      exact ⟨(createTempGo_spec _ _ _ _ hct).2.1, rfl⟩
  · cases h; exact ⟨rfl, rfl⟩

theorem postconditionLoop_inn_entry {q : CFAPostconditionLoop}
    {g : ControlFlowGraph} {q1 g1}
    (h : q.insertNeededNode g = some (q1, g1)) :
    g1.entry = g.entry ∧ q1.cond = q.cond := by
  unfold CFAPostconditionLoop.insertNeededNode at h
  split at h
  · cases hct : g.createTemporaryNode with
    | none => rw [hct] at h; cases h
    | some tg =>
      rw [hct] at h
      obtain ⟨t, gT⟩ := tg
      cases h
      exact ⟨(createTempGo_spec _ _ _ _ hct).2.1, rfl⟩
  · cases h; exact ⟨rfl, rfl⟩

theorem onewayConditional_inn_entry {q : CFAOnewayConditional}
    {g : ControlFlowGraph} {q1 g1}
    (h : q.insertNeededNode g = some (q1, g1)) :
    g1.entry = g.entry ∧ q1.cond = q.cond := by
  unfold CFAOnewayConditional.insertNeededNode at h
  split at h
  · cases hct : g.createTemporaryNode with
    | none => rw [hct] at h; cases h
    | some tg =>
      rw [hct] at h
      obtain ⟨t, gT⟩ := tg
      cases h
      refine ⟨?_, rfl⟩
      rw [insertNode_entry, insertNode_entry]
      exact (createTempGo_spec _ _ _ _ hct).2.1
  · cases h; exact ⟨rfl, rfl⟩

theorem onewayReturnConditional_inn_entry {q : CFAOnewayReturnConditional}
    {g : ControlFlowGraph} {q1 g1}
    (h : q.insertNeededNode g = some (q1, g1)) :
    g1.entry = g.entry ∧ q1.cond = q.cond := by
  unfold CFAOnewayReturnConditional.insertNeededNode at h
  split at h
  · cases hct : g.createTemporaryNode with
    | none => rw [hct] at h; cases h
    | some tg =>
      rw [hct] at h
      obtain ⟨t, gT⟩ := tg
      cases h
      exact ⟨(createTempGo_spec _ _ _ _ hct).2.1, rfl⟩
  · cases h; exact ⟨rfl, rfl⟩

theorem twowayConditional_inn_entry {q : CFATwowayConditional}
    {g : ControlFlowGraph} {q1 g1}
    (h : q.insertNeededNode g = some (q1, g1)) :
    g1.entry = g.entry ∧ q1.cond = q.cond := by
  unfold CFATwowayConditional.insertNeededNode at h
  split at h
  · cases hct : g.createTemporaryNode with
    | none => rw [hct] at h; cases h
    | some tg =>
      rw [hct] at h
      obtain ⟨t, gT⟩ := tg
      cases h
      refine ⟨?_, rfl⟩
      rw [insertNode_entry, insertNode_entry]
      exact (createTempGo_spec _ _ _ _ hct).2.1
  · cases h; exact ⟨rfl, rfl⟩

theorem statementSequence_inn_entry {q : CFAStatementSequence}
    {g : ControlFlowGraph} {q1 g1}
    (h : q.insertNeededNode g = some (q1, g1)) :
    g1.entry = g.entry ∧ q1.entry = q.entry := by
  unfold CFAStatementSequence.insertNeededNode at h
  split at h
  · cases hct : g.createTemporaryNode with
    | none => rw [hct] at h; cases h
    | some tg =>
      rw [hct] at h
      obtain ⟨t, gT⟩ := tg
      cases h
      exact ⟨(createTempGo_spec _ _ _ _ hct).2.1, rfl⟩
  · cases h; exact ⟨rfl, rfl⟩

theorem insertNeededNode_entry {p : CFAPrim} {g : ControlFlowGraph} {p1 g1}
    (h : p.insertNeededNode g = some (p1, g1)) :
    g1.entry = g.entry ∧ p1.entry = p.entry := by
  cases p with
  | preconditionLoop q =>
    simp only [CFAPrim.insertNeededNode] at h
    cases hq : q.insertNeededNode g with
    | none => rw [hq] at h; cases h
    | some r =>
      rw [hq] at h
      obtain ⟨q1, gq⟩ := r
      cases h
      obtain ⟨e1, e2⟩ := preconditionLoop_inn_entry hq
      exact ⟨e1, by simp [CFAPrim.entry, e2]⟩
  | postconditionLoop q =>
    simp only [CFAPrim.insertNeededNode] at h
    cases hq : q.insertNeededNode g with
    | none => rw [hq] at h; cases h
    | some r =>
      rw [hq] at h
      obtain ⟨q1, gq⟩ := r
      cases h
      obtain ⟨e1, e2⟩ := postconditionLoop_inn_entry hq
      exact ⟨e1, by simp [CFAPrim.entry, e2]⟩
  | onewayConditional q =>
    simp only [CFAPrim.insertNeededNode] at h
    cases hq : q.insertNeededNode g with
    | none => rw [hq] at h; cases h
    | some r =>
      rw [hq] at h
      obtain ⟨q1, gq⟩ := r
      cases h
      obtain ⟨e1, e2⟩ := onewayConditional_inn_entry hq
      exact ⟨e1, by simp [CFAPrim.entry, e2]⟩
  | onewayReturnConditional q =>
    simp only [CFAPrim.insertNeededNode] at h
    cases hq : q.insertNeededNode g with
    | none => rw [hq] at h; cases h
    | some r =>
      rw [hq] at h
      obtain ⟨q1, gq⟩ := r
      cases h
      obtain ⟨e1, e2⟩ := onewayReturnConditional_inn_entry hq
      exact ⟨e1, by simp [CFAPrim.entry, e2]⟩
  | twowayConditional q =>
    simp only [CFAPrim.insertNeededNode] at h
    cases hq : q.insertNeededNode g with
    | none => rw [hq] at h; cases h
    | some r =>
      rw [hq] at h
      obtain ⟨q1, gq⟩ := r
      cases h
      obtain ⟨e1, e2⟩ := twowayConditional_inn_entry hq
      exact ⟨e1, by simp [CFAPrim.entry, e2]⟩
  | statementSequence q =>
    simp only [CFAPrim.insertNeededNode] at h
    cases hq : q.insertNeededNode g with
    | none => rw [hq] at h; cases h
    | some r =>
      rw [hq] at h
      obtain ⟨q1, gq⟩ := r
      cases h
      obtain ⟨e1, e2⟩ := statementSequence_inn_entry hq
      exact ⟨e1, by simp [CFAPrim.entry, e2]⟩

theorem mergeCore_entry (p : CFAPrim) (g : ControlFlowGraph) :
    (p.mergeCore g).entry =
      if p.entry = g.entry then CFGNode.mk p.entry.from_pred p.exit.to_succ
      else g.entry := by
  unfold CFAPrim.mergeCore
  simp only
  have e1 : ∀ (L : List CFGNode) (g2 : ControlFlowGraph),
      (L.foldl (fun g3 n => g3.removeNode n) g2).entry = g2.entry :=
    foldl_entry_eq _ (fun _ _ => rfl)
  have e2 : ∀ (L : List CFGNode) (N : CFGNode) (ps : List CFGNode)
      (g2 : ControlFlowGraph),
      (ps.foldl (fun g3 q => if q ∈ L then g3 else g3.addEdge q N) g2).entry =
        g2.entry := by
    intro L N
    refine foldl_entry_eq _ ?_
    intro g2 q
    split <;> rfl
  have e3 : ∀ (L : List CFGNode) (N : CFGNode) (ss : List CFGNode)
      (g2 : ControlFlowGraph),
      (ss.foldl (fun g3 s => if s ∈ L then g3 else g3.addEdge N s) g2).entry =
        g2.entry := by
    intro L N
    refine foldl_entry_eq _ ?_
    intro g2 s
    split <;> rfl
  split
  · rfl
  · cases hss : alookup g.succs p.exit <;> cases hps : alookup g.preds p.entry <;>
      simp only [hss, hps] <;>
      first
        | rw [e1]
        | rw [e2, e1]
        | rw [e3, e1]
        | rw [e3, e2, e1]

theorem merge_entry_from_pred {p : CFAPrim} {g : ControlFlowGraph} {p1 g1}
    (h : p.merge g = some (p1, g1)) :
    g1.entry.from_pred = g.entry.from_pred := by
  unfold CFAPrim.merge at h
  cases hinn : p.insertNeededNode g with
  | none => rw [hinn] at h; cases h
  | some r =>
    rw [hinn] at h
    obtain ⟨p2, g2⟩ := r
    rw [Option.some.injEq, Prod.mk.injEq] at h
    obtain ⟨hp1, hg1⟩ := h
    subst hp1
    subst hg1
    obtain ⟨hge, _⟩ := insertNeededNode_entry hinn
    rw [mergeCore_entry]
    by_cases hr : p2.entry = g2.entry
    · rw [if_pos hr]
      show p2.entry.from_pred = g.entry.from_pred
      rw [hr, hge]
    · rw [if_neg hr, hge]

theorem findAllAux_ok :
    ∀ (fuel : Nat) (g : ControlFlowGraph) (acc : List CFAPrim)
      (b : CFAPrims) (gf : ControlFlowGraph),
      CFAPrim.findAllAux fuel g acc = .ok (b, gf) →
      gf.nodes.length ≤ 1 ∧ b.entry.from_pred = g.entry.from_pred := by
  intro fuel
  induction fuel with
  | zero => intro g acc b gf h; simp [CFAPrim.findAllAux] at h
  | succ f ih =>
    intro g acc b gf h
    simp only [CFAPrim.findAllAux] at h
    split at h
    · split at h
      · cases h
      · split at h
        · cases h
        · rename_i p hff pg p1 g1 hm
          obtain ⟨r1, r2⟩ := ih _ _ _ _ h
          exact ⟨r1, r2.trans (merge_entry_from_pred hm)⟩
    · rename_i hlen
      cases h
      exact ⟨by omega, rfl⟩

/-! ### The claims -/

/-- C1: the spec says `dominates(through, to)` returns true iff every path
from the CFG entry to `to` passes through `through`.  The code violates
this: on the graph `e → a, e → b` it returns `true` for `dominates(a, b)`
even though the path `e → b` avoids `a` (the recursive check never inspects
`to` and has no failing base case). -/
theorem claim_C1 :
    diamondCFG.dominates (nodeOf nmA) (nodeOf nmB) = true ∧
    ¬ DominatesSpec diamondCFG (nodeOf nmA) (nodeOf nmB) := by
  constructor
  · decide
  · intro h
    have hchain : List.Chain' (EdgeProp diamondCFG) [nodeOf nmE, nodeOf nmB] := by
      refine List.chain'_cons.2 ⟨?_, List.chain'_singleton _⟩
      show nodeOf nmB ∈ succsOf diamondCFG (nodeOf nmE)
      decide
    have h2 := h [nodeOf nmE, nodeOf nmB] (by decide) (by decide) hchain
    exact absurd h2 (by decide)

/-- C2: the spec says that when no primitive matches while the graph still
has more than one node, `find_all` returns `None`.  The code instead calls
`Option::unwrap` on the `find_first` result and panics; it can never return
`None`. -/
theorem claim_C2 (g : ControlFlowGraph) (fuel : Nat) (acc : List CFAPrim)
    (h1 : CFAPrim.findFirst g = none) (h2 : 1 < g.nodes.length)
    (h3 : 0 < fuel) :
    CFAPrim.findAllAux fuel g acc = .panicked := by
  cases fuel with
  | zero => exact absurd h3 (by omega)
  | succ f => simp [CFAPrim.findAllAux, h1, h2]

/-- Witness for C2 at the concrete irreducible `switch` graph. -/
theorem claim_C2_witness :
    CFAPrim.findFirst switchCFG = none ∧ 1 < switchCFG.nodes.length ∧
    CFAPrim.findAllAux 5 switchCFG [] = .panicked :=
  ⟨by decide, by decide, claim_C2 switchCFG 5 [] (by decide) (by decide) (by decide)⟩

/-- C9: when no recorded primitive matches the node `at` by
`(from_pred, to_succ)` identity, `CFRGroups::handle` treats it as a leaf:
if the two halves agree it succeeds with `[]` for a temporary and
`[Block at.from_pred]` otherwise, and if the halves differ it returns the
optional-absent value. -/
theorem claim_C9 (prims : CFAPrims) (atN : CFGNode) (fuel : Nat)
    (hf : 0 < fuel)
    (hno : prims.prims.find? (fun p =>
        p.entry.from_pred == atN.from_pred &&
        p.exit.to_succ == atN.to_succ) = none) :
    handle prims fuel atN =
      if atN.from_pred = atN.to_succ then
        .ok (if prims.temps.contains atN.from_pred then []
             else [CFRGroup.block atN.from_pred])
      else .failed := by
  cases fuel with
  | zero => exact absurd hf (by omega)
  | succ f => simp only [handle, hno]

/-- Witness for C9 on the empty bundle: the leaf block case. -/
theorem claim_C9_witness :
    emptyBundle.prims.find? (fun p =>
        p.entry.from_pred == (nodeOf nmB1).from_pred &&
        p.exit.to_succ == (nodeOf nmB1).to_succ) = none ∧
    handle emptyBundle 3 (nodeOf nmB1) =
      (if (nodeOf nmB1).from_pred = (nodeOf nmB1).to_succ then
        HandleResult.ok
          (if emptyBundle.temps.contains (nodeOf nmB1).from_pred then []
           else [CFRGroup.block (nodeOf nmB1).from_pred])
      else .failed) :=
  ⟨rfl, claim_C9 emptyBundle (nodeOf nmB1) 3 (by omega) rfl⟩

/-- C10 (amended): on the linear CFG `b1 → b2 → b3 → ret`, `find_all`
succeeds with exactly two `StatementSequence` primitives (not three), and
CFR recovers the group sequence `Block(b1) Block(b2) Block(b3)`. -/
theorem claim_C10 :
    CFAPrim.findAll 10 linearCFG = .ok linearBundle ∧
    linearBundle.prims =
      [.statementSequence ⟨nodeOf nmB1, nodeOf nmB2⟩,
       .statementSequence ⟨⟨nmB1, nmB2⟩, nodeOf nmB3⟩] ∧
    CFRGroups.new 10 linearBundle =
      .ok [CFRGroup.block nmB1, CFRGroup.block nmB2, CFRGroup.block nmB3] :=
  ⟨rfl, rfl, rfl⟩

/-- Counterexample for C10 as stated: the linear run records two primitives,
not three. -/
theorem claim_C10_cex :
    CFAPrim.findAll 10 linearCFG = .ok linearBundle ∧
    linearBundle.prims.length = 2 ∧ ¬ linearBundle.prims.length = 3 :=
  ⟨rfl, rfl, by decide⟩

/-- C7 (amended): a successful `find_all` leaves a residual CFG with at
most one node — possibly zero, not always exactly one — and the bundle
entry's `from_pred` is the original function entry name. -/
theorem claim_C7 (f : Function) (b0 : BasicBlock) (g : ControlFlowGraph)
    (fuel : Nat) (b : CFAPrims) (gf : ControlFlowGraph)
    (hb0 : f.basic_blocks.head? = some b0)
    (hnew : ControlFlowGraph.new f = some g)
    (hrun : CFAPrim.findAllAux fuel g [] = .ok (b, gf)) :
    gf.nodes.length ≤ 1 ∧ b.entry.from_pred = b0.name := by
  obtain ⟨h1, h2⟩ := findAllAux_ok fuel g [] b gf hrun
  refine ⟨h1, ?_⟩
  rw [h2, new_entry hb0 hnew]
  rfl

/-- Witness for C7 at the linear scenario. -/
theorem claim_C7_witness :
    linearFunction.basic_blocks.head? = some ⟨nmB1, .br nmB2⟩ ∧
    ControlFlowGraph.new linearFunction = some linearCFG ∧
    CFAPrim.findAllAux 10 linearCFG [] = .ok (linearBundle, linearResidualCFG) ∧
    (linearResidualCFG.nodes.length ≤ 1 ∧
     linearBundle.entry.from_pred = nmB1) :=
  ⟨rfl, rfl, rfl,
   claim_C7 linearFunction ⟨nmB1, .br nmB2⟩ linearCFG 10 linearBundle
     linearResidualCFG rfl rfl rfl⟩

/-- Counterexample for C7 as stated: on the linear scenario the residual
CFG after a successful `find_all` has zero nodes, not exactly one. -/
theorem claim_C7_cex :
    CFAPrim.findAllAux 10 linearCFG [] = .ok (linearBundle, linearResidualCFG) ∧
    linearResidualCFG.nodes.length = 0 ∧
    ¬ linearResidualCFG.nodes.length = 1 :=
  ⟨rfl, rfl, by decide⟩

/-! ### The dominance routine always returns true (C3) -/

theorem length_filter_mono (l : List CFGNode) (p q : CFGNode → Bool)
    (h : ∀ x, p x = true → q x = true) :
    (l.filter p).length ≤ (l.filter q).length := by
  induction l with
  | nil => simp
  | cons a rest ih =>
    simp only [List.filter_cons]
    by_cases hp : p a = true
    · rw [if_pos hp, if_pos (h a hp)]
      simpa using ih
    · rw [if_neg hp]
      split
      · exact ih.trans (by simp)
      · exact ih

theorem length_filter_lt_of_mem (l : List CFGNode) (p : CFGNode → Bool)
    (s : CFGNode) (hs : s ∈ l) (hp : p s = false) :
    (l.filter p).length < l.length := by
  induction l with
  | nil => cases hs
  | cons a rest ih =>
    simp only [List.filter_cons, List.length_cons]
    rcases List.mem_cons.1 hs with rfl | hmem
    · rw [if_neg (by simp [hp])]
      have := List.length_filter_le p rest
      omega
    · split
      · simpa using ih hmem
      · have := ih hmem
        omega

theorem unvisitedCount_anti (g : ControlFlowGraph)
    {c1 c2 : List CFGNode} (h : c1 ⊆ c2) :
    unvisitedCount g c2 ≤ unvisitedCount g c1 := by
  unfold unvisitedCount
  refine length_filter_mono _ _ _ ?_
  intro x hx
  simp only [decide_eq_true_eq] at hx ⊢
  exact fun hmem => hx (h hmem)

theorem unvisitedCount_push (g : ControlFlowGraph) {checked : List CFGNode}
    {s : CFGNode} (hsv : s ∈ succVals g) (hnc : s ∉ checked) :
    unvisitedCount g (checked ++ [s]) < unvisitedCount g checked := by
  unfold unvisitedCount
  have hpred : (fun x => decide (x ∉ checked ++ [s])) =
      fun x => decide (x ≠ s) && decide (x ∉ checked) := by
    funext x
    by_cases h1 : x ∈ checked <;> by_cases h2 : x = s <;>
      simp [List.mem_append, h1, h2]
  rw [hpred, ← List.filter_filter]
  refine length_filter_lt_of_mem _ _ s ?_ ?_
  · exact List.mem_filter.2 ⟨List.mem_dedup.2 hsv, by simpa using hnc⟩
  · simp

theorem mem_vals_foldr {m : AdjMap} {k x : CFGNode} {l : List CFGNode}
    (hmem : (k, l) ∈ m) (hx : x ∈ l) :
    x ∈ m.foldr (fun pr acc => pr.2 ++ acc) [] := by
  induction m with
  | nil => cases hmem
  | cons pr rest ih =>
    simp only [List.foldr_cons]
    rcases List.mem_cons.1 hmem with rfl | hmem2
    · exact List.mem_append.2 (Or.inl hx)
    · exact List.mem_append.2 (Or.inr (ih hmem2))

theorem mem_succVals {g : ControlFlowGraph} {k : CFGNode}
    {l : List CFGNode} {x : CFGNode}
    (hlk : alookup g.succs k = some l) (hx : x ∈ l) : x ∈ succVals g :=
  mem_vals_foldr (alookup_mem hlk) hx

theorem dominatesFold_sub (g : ControlFlowGraph) (through to_ : CFGNode)
    (fuel : Nat)
    (hP : ∀ atN checked,
      checked ⊆ (dominatesInner g through to_ fuel atN checked).2) :
    ∀ (ss : List CFGNode) (acc : Bool × List CFGNode),
      acc.2 ⊆ (ss.foldl (fun acc s =>
        if !acc.1 then acc
        else if s ∈ acc.2 then acc
        else if s = through then acc
        else dominatesInner g through to_ fuel s acc.2) acc).2 := by
  intro ss
  induction ss with
  | nil => intro acc x hx; exact hx
  | cons s rest ih =>
    intro acc
    rw [List.foldl_cons]
    refine fun x hx => ih _ ?_
    by_cases h1 : !acc.1
    · rw [if_pos h1]; exact hx
    · rw [if_neg h1]
      by_cases h2 : s ∈ acc.2
      · rw [if_pos h2]; exact hx
      · rw [if_neg h2]
        by_cases h3 : s = through
        · rw [if_pos h3]; exact hx
        · rw [if_neg h3]
          exact hP s acc.2 hx

theorem dominatesInner_sub (g : ControlFlowGraph) (through to_ : CFGNode) :
    ∀ (fuel : Nat) (atN : CFGNode) (checked : List CFGNode),
      checked ⊆ (dominatesInner g through to_ fuel atN checked).2 := by
  intro fuel
  induction fuel with
  | zero => intro atN checked x hx; exact hx
  | succ f ih =>
    intro atN checked
    simp only [dominatesInner]
    cases hlk : alookup g.succs atN with
    | none => exact fun x hx => List.mem_append.2 (Or.inl hx)
    | some ss =>
      intro x hx
      exact dominatesFold_sub g through to_ f ih ss (true, checked ++ [atN])
        (List.mem_append.2 (Or.inl hx))

theorem dominatesFold_true (g : ControlFlowGraph) (through to_ : CFGNode)
    (fuel : Nat)
    (hT : ∀ atN checked, unvisitedCount g (checked ++ [atN]) < fuel →
      (dominatesInner g through to_ fuel atN checked).1 = true) :
    ∀ (ss : List CFGNode), (∀ s ∈ ss, s ∈ succVals g) →
      ∀ acc : Bool × List CFGNode, acc.1 = true →
        unvisitedCount g acc.2 ≤ fuel →
        (ss.foldl (fun acc s =>
          if !acc.1 then acc
          else if s ∈ acc.2 then acc
          else if s = through then acc
          else dominatesInner g through to_ fuel s acc.2) acc).1 = true := by
  intro ss
  induction ss with
  | nil => intro _ acc h1 _; exact h1
  | cons s rest ih =>
    intro hss acc h1 h2
    have hss2 : ∀ x ∈ rest, x ∈ succVals g :=
      fun x hx => hss x (List.mem_cons_of_mem s hx)
    rw [List.foldl_cons]
    have hb : (!acc.1) = false := by rw [h1]; rfl
    rw [if_neg (by rw [hb]; exact Bool.false_ne_true)]
    by_cases hmem : s ∈ acc.2
    · rw [if_pos hmem]
      exact ih hss2 acc h1 h2
    · rw [if_neg hmem]
      by_cases hth : s = through
      · rw [if_pos hth]
        exact ih hss2 acc h1 h2
      · rw [if_neg hth]
        have hsv : s ∈ succVals g := hss s (List.mem_cons_self s rest)
        have hlt : unvisitedCount g (acc.2 ++ [s]) < fuel := by
          have := unvisitedCount_push g hsv hmem
          omega
        have hr1 : (dominatesInner g through to_ fuel s acc.2).1 = true :=
          hT s acc.2 hlt
        refine ih hss2 _ hr1 ?_
        have hsub := dominatesInner_sub g through to_ fuel s acc.2
        exact (unvisitedCount_anti g hsub).trans h2

theorem dominatesInner_true (g : ControlFlowGraph) (through to_ : CFGNode) :
    ∀ (fuel : Nat) (atN : CFGNode) (checked : List CFGNode),
      unvisitedCount g (checked ++ [atN]) < fuel →
      (dominatesInner g through to_ fuel atN checked).1 = true := by
  intro fuel
  induction fuel with
  | zero => intro atN checked h; omega
  | succ f ih =>
    intro atN checked h
    simp only [dominatesInner]
    cases hlk : alookup g.succs atN with
    | none => rfl
    | some ss =>
      refine dominatesFold_true g through to_ f ih ss
        (fun s hs => mem_succVals hlk hs) (true, checked ++ [atN]) rfl ?_
      show unvisitedCount g (checked ++ [atN]) ≤ f
      omega

/-! ### Both-orderings behaviour of the matchers (C5) -/

theorem twoway_isValid_symm (g : ControlFlowGraph) (c x y e : CFGNode) :
    CFATwowayConditional.isValid g c x y e = true ↔
    CFATwowayConditional.isValid g c y x e = true := by
  unfold CFATwowayConditional.isValid
  cases hcs : alookup g.succs c with
  | none => simp
  | some cs =>
    simp only [Bool.and_eq_true, and_assoc]
    constructor <;>
      rintro ⟨h1, h2, h3, h4, h5, h6, h7a, h7b, h7c, h8, h9, h10, h11⟩ <;>
      exact ⟨h1, h2, h4, h3, h5, h6, h7a, h7c, h7b, h10, h11, h8, h9⟩

theorem twoway_isValid_bodyB_succs {g : ControlFlowGraph} {c x y e : CFGNode}
    (h : CFATwowayConditional.isValid g c x y e = true) :
    ∃ bs, alookup g.succs y = some bs ∧ bs.length = 1 ∧ e ∈ bs := by
  unfold CFATwowayConditional.isValid at h
  simp only [Bool.and_eq_true, and_assoc] at h
  obtain ⟨-, -, -, -, -, -, -, -, -, -, h11⟩ := h
  cases hsy : alookup g.succs y with
  | none => rw [hsy] at h11; cases h11
  | some bs =>
    rw [hsy] at h11
    simp only [Bool.and_eq_true, beq_iff_eq] at h11
    exact ⟨bs, rfl, h11.1, List.mem_of_elem_eq_true h11.2⟩

theorem twoway_tryOrder_swap_none {g : ControlFlowGraph} {cond a b : CFGNode}
    (h : ∀ e, alookup g.succs a = some [e] →
      ¬ CFATwowayConditional.isValid g cond a b e = true) :
    CFATwowayConditional.tryOrder g cond b a = none := by
  unfold CFATwowayConditional.tryOrder
  cases hsb : alookup g.succs b with
  | none => rfl
  | some bs =>
    cases bs with
    | nil => rfl
    | cons eb bs2 =>
      cases bs2 with
      | cons f r => rfl
      | nil =>
        show (if CFATwowayConditional.isValid g cond b a eb = true then
            some (CFATwowayConditional.mk cond b a eb) else none) = none
        by_cases hv2 : CFATwowayConditional.isValid g cond b a eb = true
        · exfalso
          have hvx : CFATwowayConditional.isValid g cond a b eb = true :=
            (twoway_isValid_symm g cond b a eb).1 hv2
          obtain ⟨bs3, hbs3, hlen, hmem⟩ := twoway_isValid_bodyB_succs hv2
          have hbs3eq : bs3 = [eb] := by
            cases bs3 with
            | nil => cases hmem
            | cons z zs =>
              cases zs with
              | nil =>
                rcases List.mem_singleton.1 hmem with rfl
                rfl
              | cons w ws => simp at hlen
          exact h eb (hbs3eq ▸ hbs3) hvx
        · exact if_neg hv2

theorem twoway_tryPair_eq (g : ControlFlowGraph) (cond a b : CFGNode) :
    CFATwowayConditional.tryPair g cond a b =
      (match CFATwowayConditional.tryOrder g cond a b with
       | some p => some p
       | none => CFATwowayConditional.tryOrder g cond b a) := by
  unfold CFATwowayConditional.tryPair
  cases hsa : alookup g.succs a with
  | none =>
    have h1 : CFATwowayConditional.tryOrder g cond a b = none := by
      unfold CFATwowayConditional.tryOrder
      rw [hsa]
    rw [h1]
    refine (twoway_tryOrder_swap_none ?_).symm
    intro e he
    rw [hsa] at he
    cases he
  | some as_ =>
    cases as_ with
    | nil =>
      have h1 : CFATwowayConditional.tryOrder g cond a b = none := by
        unfold CFATwowayConditional.tryOrder
        rw [hsa]
      rw [h1]
      refine (twoway_tryOrder_swap_none ?_).symm
      intro e he
      rw [hsa] at he
      cases he
    | cons e as2 =>
      cases as2 with
      | cons f r =>
        have h1 : CFATwowayConditional.tryOrder g cond a b = none := by
          unfold CFATwowayConditional.tryOrder
          rw [hsa]
        rw [h1]
        refine (twoway_tryOrder_swap_none ?_).symm
        intro e2 he2
        rw [hsa] at he2
        cases he2
      | nil =>
        show (if CFATwowayConditional.isValid g cond a b e = true then
            some (CFATwowayConditional.mk cond a b e) else none) = _
        by_cases hv1 : CFATwowayConditional.isValid g cond a b e = true
        · rw [if_pos hv1]
          have h1 : CFATwowayConditional.tryOrder g cond a b =
              some (CFATwowayConditional.mk cond a b e) := by
            unfold CFATwowayConditional.tryOrder
            rw [hsa]
            exact if_pos hv1
          rw [h1]
        · rw [if_neg hv1]
          have h1 : CFATwowayConditional.tryOrder g cond a b = none := by
            unfold CFATwowayConditional.tryOrder
            rw [hsa]
            exact if_neg hv1
          rw [h1]
          refine (twoway_tryOrder_swap_none ?_).symm
          intro e2 he2
          rw [hsa] at he2
          obtain rfl : e = e2 := by
            have h3 := Option.some.inj he2
            exact (List.cons.inj h3).1
          exact hv1

theorem twoway_tryAt_eq_spec (g : ControlFlowGraph) (cond : CFGNode) :
    CFATwowayConditional.tryAt g cond =
    CFATwowayConditional.tryAtSpec g cond := by
  unfold CFATwowayConditional.tryAt CFATwowayConditional.tryAtSpec
  cases hcs : alookup g.succs cond with
  | none => rfl
  | some cs =>
    cases cs with
    | nil => rfl
    | cons a cs1 =>
      cases cs1 with
      | nil => rfl
      | cons b cs2 =>
        cases cs2 with
        | cons c rest => rfl
        | nil => exact twoway_tryPair_eq g cond a b

theorem precond_tryAt_eq_spec (g : ControlFlowGraph) (cond : CFGNode) :
    CFAPreconditionLoop.tryAt g cond =
    CFAPreconditionLoop.tryAtSpec g cond := by
  unfold CFAPreconditionLoop.tryAt CFAPreconditionLoop.tryAtSpec
    CFAPreconditionLoop.tryOrder
  cases hcs : alookup g.succs cond with
  | none => rfl
  | some cs =>
    cases cs with
    | nil => rfl
    | cons a cs1 =>
      cases cs1 with
      | nil => rfl
      | cons b cs2 =>
        cases cs2 with
        | cons c r => rfl
        | nil => cases h1 : CFAPreconditionLoop.isValid g cond a b <;>
            simp [h1]

theorem postcond_tryAt_eq_spec (g : ControlFlowGraph) (cond : CFGNode) :
    CFAPostconditionLoop.tryAt g cond =
    CFAPostconditionLoop.tryAtSpec g cond := by
  unfold CFAPostconditionLoop.tryAt CFAPostconditionLoop.tryAtSpec
    CFAPostconditionLoop.tryOrder
  cases hcs : alookup g.succs cond with
  | none => rfl
  | some cs =>
    cases cs with
    | nil => rfl
    | cons a cs1 =>
      cases cs1 with
      | nil => rfl
      | cons b cs2 =>
        cases cs2 with
        | cons c r => rfl
        | nil => cases h1 : CFAPostconditionLoop.isValid g cond a <;>
            simp [h1]

theorem oneway_tryAt_eq_spec (g : ControlFlowGraph) (cond : CFGNode) :
    CFAOnewayConditional.tryAt g cond =
    CFAOnewayConditional.tryAtSpec g cond := by
  unfold CFAOnewayConditional.tryAt CFAOnewayConditional.tryAtSpec
    CFAOnewayConditional.tryOrder
  cases hcs : alookup g.succs cond with
  | none => rfl
  | some cs =>
    cases cs with
    | nil => rfl
    | cons a cs1 =>
      cases cs1 with
      | nil => rfl
      | cons b cs2 =>
        cases cs2 with
        | cons c r => rfl
        | nil => cases h1 : CFAOnewayConditional.isValid g cond a b <;>
            simp [h1]

theorem onewayret_tryAt_eq_spec (g : ControlFlowGraph) (cond : CFGNode) :
    CFAOnewayReturnConditional.tryAt g cond =
    CFAOnewayReturnConditional.tryAtSpec g cond := by
  unfold CFAOnewayReturnConditional.tryAt CFAOnewayReturnConditional.tryAtSpec
    CFAOnewayReturnConditional.tryOrder
  cases hcs : alookup g.succs cond with
  | none => rfl
  | some cs =>
    cases cs with
    | nil => rfl
    | cons a cs1 =>
      cases cs1 with
      | nil => rfl
      | cons b cs2 =>
        cases cs2 with
        | cons c r => rfl
        | nil => cases h1 : CFAOnewayReturnConditional.isValid g cond a b <;>
            simp [h1]

/-- C5: for every CFG, every two-successor matcher's `find_first` behaves as
if it tried both orderings (A,B) then (B,A) of the entry's two successors,
accepting the first that validates with A-first winning: each of the five
variants equals its spec-modelled both-orderings matcher.  The precondition
loop, postcondition loop, one-way conditional and one-way return
conditional code the two trials literally (the precondition loop's per-node
trial is additionally characterized explicitly); the two-way conditional
only codes the A-first trial but is extensionally equal to the reference,
because a (B,A)-only validation is impossible (its `is_valid` is symmetric
in the two bodies). -/
theorem claim_C5 :
    (∀ g : ControlFlowGraph,
      CFATwowayConditional.findFirst g = CFATwowayConditional.findFirstSpec g) ∧
    (∀ (g : ControlFlowGraph) (cond a b : CFGNode),
      alookup g.succs cond = some [a, b] →
      CFAPreconditionLoop.tryAt g cond =
        if CFAPreconditionLoop.isValid g cond a b then some ⟨cond, a, b⟩
        else if CFAPreconditionLoop.isValid g cond b a then some ⟨cond, b, a⟩
        else none) ∧
    (∀ g : ControlFlowGraph,
      CFAPreconditionLoop.findFirst g = CFAPreconditionLoop.findFirstSpec g) ∧
    (∀ g : ControlFlowGraph,
      CFAPostconditionLoop.findFirst g = CFAPostconditionLoop.findFirstSpec g) ∧
    (∀ g : ControlFlowGraph,
      CFAOnewayConditional.findFirst g = CFAOnewayConditional.findFirstSpec g) ∧
    (∀ g : ControlFlowGraph,
      CFAOnewayReturnConditional.findFirst g =
        CFAOnewayReturnConditional.findFirstSpec g) := by
  refine ⟨?_, ?_, ?_, ?_, ?_, ?_⟩
  · intro g
    unfold CFATwowayConditional.findFirst CFATwowayConditional.findFirstSpec
    have hfun : CFATwowayConditional.tryAt g = CFATwowayConditional.tryAtSpec g :=
      funext (twoway_tryAt_eq_spec g)
    rw [hfun]
  · intro g cond a b h
    unfold CFAPreconditionLoop.tryAt
    rw [h]
  · intro g
    unfold CFAPreconditionLoop.findFirst CFAPreconditionLoop.findFirstSpec
    have hfun : CFAPreconditionLoop.tryAt g = CFAPreconditionLoop.tryAtSpec g :=
      funext (precond_tryAt_eq_spec g)
    rw [hfun]
  · intro g
    unfold CFAPostconditionLoop.findFirst CFAPostconditionLoop.findFirstSpec
    have hfun : CFAPostconditionLoop.tryAt g = CFAPostconditionLoop.tryAtSpec g :=
      funext (postcond_tryAt_eq_spec g)
    rw [hfun]
  · intro g
    unfold CFAOnewayConditional.findFirst CFAOnewayConditional.findFirstSpec
    have hfun : CFAOnewayConditional.tryAt g = CFAOnewayConditional.tryAtSpec g :=
      funext (oneway_tryAt_eq_spec g)
    rw [hfun]
  · intro g
    unfold CFAOnewayReturnConditional.findFirst
      CFAOnewayReturnConditional.findFirstSpec
    have hfun : CFAOnewayReturnConditional.tryAt g =
        CFAOnewayReturnConditional.tryAtSpec g :=
      funext (onewayret_tryAt_eq_spec g)
    rw [hfun]

/-- Witness for C5's precondition-loop trial characterization at the
while-loop scenario. -/
theorem claim_C5_witness :
    alookup whileCFG.succs (nodeOf nmB2) = some [nodeOf nmB3, nodeOf nmB4] ∧
    CFAPreconditionLoop.tryAt whileCFG (nodeOf nmB2) =
      (if CFAPreconditionLoop.isValid whileCFG (nodeOf nmB2) (nodeOf nmB3)
          (nodeOf nmB4) then some ⟨nodeOf nmB2, nodeOf nmB3, nodeOf nmB4⟩
       else if CFAPreconditionLoop.isValid whileCFG (nodeOf nmB2)
          (nodeOf nmB4) (nodeOf nmB3) then
         some ⟨nodeOf nmB2, nodeOf nmB4, nodeOf nmB3⟩
       else none) :=
  ⟨rfl, claim_C5.2.1 whileCFG (nodeOf nmB2) (nodeOf nmB3) (nodeOf nmB4) rfl⟩

/-! ### Fix-up idempotence (C8) -/

theorem alookup_none_of_keysSub {g : ControlFlowGraph} {x : CFGNode}
    (hk : KeysSubNodes g) (hx : x ∉ g.nodes) :
    alookup g.preds x = none := by
  cases hlo : alookup g.preds x with
  | none => rfl
  | some l => exact absurd (hk.1 _ (alookup_mem hlo)) hx

theorem precond_inn_idem {g : ControlFlowGraph} {p p1 : CFAPreconditionLoop}
    {g1 : ControlFlowGraph}
    (hk : KeysSubNodes g) (hexit : p.exit ∈ g.nodes)
    (h : p.insertNeededNode g = some (p1, g1)) :
    p1.insertNeededNode g1 = some (p1, g1) := by
  unfold CFAPreconditionLoop.insertNeededNode at h ⊢
  split at h
  · cases hct : g.createTemporaryNode with
    | none => rw [hct] at h; cases h
    | some tg =>
      rw [hct] at h
      obtain ⟨t, gT⟩ := tg
      cases h
      obtain ⟨hfresh, -, hnodes, hpreds, -⟩ := createTempGo_spec _ _ _ _ hct
      have htne : ¬ nodeOf t = p.exit := fun heq => hfresh (heq ▸ hexit)
      have hkey : alookup gT.preds (nodeOf t) = none := by
        rw [hpreds]
        exact alookup_none_of_keysSub hk hfresh
      have hlookup :
          alookup (gT.insertNode (nodeOf t) p.cond p.exit).preds (nodeOf t) =
            some [p.cond] := by
        show alookup (ainsert (ainsert (aeraseAt gT.preds p.exit p.cond)
          (nodeOf t) p.cond) p.exit (nodeOf t)) (nodeOf t) = some [p.cond]
        rw [alookup_ainsert, if_neg htne, alookup_ainsert, if_pos rfl,
          alookup_aeraseAt, if_neg htne, hkey]
        simp [uinsert]
      rw [if_neg]
      show ¬ ((alookup (gT.insertNode (nodeOf t) p.cond p.exit).preds
        (nodeOf t)).map List.length).getD 0 ≠ 1
      rw [hlookup]
      simp
  · cases h
    rename_i hcond
    rw [if_neg hcond]

theorem twoway_inn_idem {g : ControlFlowGraph} {p p1 : CFATwowayConditional}
    {g1 : ControlFlowGraph}
    (hk : KeysSubNodes g) (hexit : p.exit ∈ g.nodes)
    (hab : ¬ p.body_a = p.body_b)
    (h : p.insertNeededNode g = some (p1, g1)) :
    p1.insertNeededNode g1 = some (p1, g1) := by
  unfold CFATwowayConditional.insertNeededNode at h ⊢
  split at h
  · cases hct : g.createTemporaryNode with
    | none => rw [hct] at h; cases h
    | some tg =>
      rw [hct] at h
      obtain ⟨t, gT⟩ := tg
      cases h
      obtain ⟨hfresh, -, hnodes, hpreds, -⟩ := createTempGo_spec _ _ _ _ hct
      have htne : ¬ nodeOf t = p.exit := fun heq => hfresh (heq ▸ hexit)
      have hba : ¬ p.body_b = p.body_a := fun heq => hab heq.symm
      have hkey : alookup gT.preds (nodeOf t) = none := by
        rw [hpreds]
        exact alookup_none_of_keysSub hk hfresh
      have hlookup :
          alookup ((gT.insertNode (nodeOf t) p.body_a p.exit).insertNode
            (nodeOf t) p.body_b p.exit).preds (nodeOf t) =
            some [p.body_a, p.body_b] := by
        show alookup
          (ainsert (ainsert (aeraseAt
            (ainsert (ainsert (aeraseAt gT.preds p.exit p.body_a)
              (nodeOf t) p.body_a) p.exit (nodeOf t))
            p.exit p.body_b) (nodeOf t) p.body_b) p.exit (nodeOf t))
          (nodeOf t) = some [p.body_a, p.body_b]
        rw [alookup_ainsert, if_neg htne, alookup_ainsert, if_pos rfl,
          alookup_aeraseAt, if_neg htne, alookup_ainsert, if_neg htne,
          alookup_ainsert, if_pos rfl, alookup_aeraseAt, if_neg htne, hkey]
        simp [uinsert, hba]
      rw [if_neg]
      show ¬ ((alookup ((gT.insertNode (nodeOf t) p.body_a p.exit).insertNode
        (nodeOf t) p.body_b p.exit).preds (nodeOf t)).map List.length).getD 0 ≠ 2
      rw [hlookup]
      simp
  · cases h
    rename_i hcond
    rw [if_neg hcond]

theorem precond_findFirst_exit_mem {g : ControlFlowGraph}
    {p : CFAPreconditionLoop} (hv : ValuesSubNodes g)
    (h : CFAPreconditionLoop.findFirst g = some p) : p.exit ∈ g.nodes := by
  obtain ⟨cond, hmem, htry⟩ := exists_of_findSome? h
  unfold CFAPreconditionLoop.tryAt at htry
  cases hcs : alookup g.succs cond with
  | none => rw [hcs] at htry; cases htry
  | some cs =>
    rw [hcs] at htry
    cases cs with
    | nil => cases htry
    | cons a cs1 =>
      cases cs1 with
      | nil => cases htry
      | cons b cs2 =>
        cases cs2 with
        | cons c r => cases htry
        | nil =>
          have hamem : a ∈ g.nodes :=
            hv.2 _ (alookup_mem hcs) a (by simp)
          have hbmem : b ∈ g.nodes :=
            hv.2 _ (alookup_mem hcs) b (by simp)
          have h2 : (if CFAPreconditionLoop.isValid g cond a b = true then
              some (CFAPreconditionLoop.mk cond a b)
            else if CFAPreconditionLoop.isValid g cond b a = true then
              some (CFAPreconditionLoop.mk cond b a)
            else none) = some p := htry
          split at h2
          · cases h2; exact hbmem
          · split at h2
            · cases h2; exact hamem
            · cases h2

theorem twoway_findFirst_props {g : ControlFlowGraph}
    {p : CFATwowayConditional} (hv : ValuesSubNodes g) (hn : AdjNodup g)
    (h : CFATwowayConditional.findFirst g = some p) :
    p.exit ∈ g.nodes ∧ ¬ p.body_a = p.body_b := by
  obtain ⟨cond, hmem, htry⟩ := exists_of_findSome? h
  unfold CFATwowayConditional.tryAt at htry
  cases hcs : alookup g.succs cond with
  | none => rw [hcs] at htry; cases htry
  | some cs =>
    rw [hcs] at htry
    cases cs with
    | nil => cases htry
    | cons a cs1 =>
      cases cs1 with
      | nil => cases htry
      | cons b cs2 =>
        cases cs2 with
        | cons c r => cases htry
        | nil =>
          have h2 : CFATwowayConditional.tryPair g cond a b = some p := htry
          unfold CFATwowayConditional.tryPair at h2
          cases hsa : alookup g.succs a with
          | none => rw [hsa] at h2; cases h2
          | some as_ =>
            rw [hsa] at h2
            cases as_ with
            | nil => cases h2
            | cons e as2 =>
              cases as2 with
              | cons f r2 => cases h2
              | nil =>
                have h3 : (if CFATwowayConditional.isValid g cond a b e = true
                    then some (CFATwowayConditional.mk cond a b e)
                    else none) = some p := h2
                have hanb : ¬ a = b := by
                  have hsuccs : succsOf g cond = [a, b] := by
                    unfold succsOf
                    rw [hcs]
                    rfl
                  have hnd := hn.2 cond
                  rw [hsuccs] at hnd
                  intro heq
                  rw [List.nodup_cons] at hnd
                  exact hnd.1 (heq ▸ List.mem_singleton.2 rfl)
                have hemem : e ∈ g.nodes :=
                  hv.2 _ (alookup_mem hsa) e (by simp)
                split at h3
                · cases h3
                  exact ⟨hemem, hanb⟩
                · cases h3

theorem postcond_inn_idem {g : ControlFlowGraph}
    {p p1 : CFAPostconditionLoop} {g1 : ControlFlowGraph}
    (hk : KeysSubNodes g) (hexit : p.exit ∈ g.nodes)
    (h : p.insertNeededNode g = some (p1, g1)) :
    p1.insertNeededNode g1 = some (p1, g1) := by
  unfold CFAPostconditionLoop.insertNeededNode at h ⊢
  split at h
  · cases hct : g.createTemporaryNode with
    | none => rw [hct] at h; cases h
    | some tg =>
      rw [hct] at h
      obtain ⟨t, gT⟩ := tg
      cases h
      obtain ⟨hfresh, -, hnodes, hpreds, -⟩ := createTempGo_spec _ _ _ _ hct
      have htne : ¬ nodeOf t = p.exit := fun heq => hfresh (heq ▸ hexit)
      have hkey : alookup gT.preds (nodeOf t) = none := by
        rw [hpreds]
        exact alookup_none_of_keysSub hk hfresh
      have hlookup :
          alookup (gT.insertNode (nodeOf t) p.cond p.exit).preds (nodeOf t) =
            some [p.cond] := by
        show alookup (ainsert (ainsert (aeraseAt gT.preds p.exit p.cond)
          (nodeOf t) p.cond) p.exit (nodeOf t)) (nodeOf t) = some [p.cond]
        rw [alookup_ainsert, if_neg htne, alookup_ainsert, if_pos rfl,
          alookup_aeraseAt, if_neg htne, hkey]
        simp [uinsert]
      rw [if_neg]
      show ¬ ((alookup (gT.insertNode (nodeOf t) p.cond p.exit).preds
        (nodeOf t)).map List.length).getD 0 ≠ 1
      rw [hlookup]
      simp
  · cases h
    rename_i hcond
    rw [if_neg hcond]

theorem onewayret_inn_idem {g : ControlFlowGraph}
    {p p1 : CFAOnewayReturnConditional} {g1 : ControlFlowGraph}
    (hk : KeysSubNodes g) (hexit : p.exit ∈ g.nodes)
    (h : p.insertNeededNode g = some (p1, g1)) :
    p1.insertNeededNode g1 = some (p1, g1) := by
  unfold CFAOnewayReturnConditional.insertNeededNode at h ⊢
  split at h
  · cases hct : g.createTemporaryNode with
    | none => rw [hct] at h; cases h
    | some tg =>
      rw [hct] at h
      obtain ⟨t, gT⟩ := tg
      cases h
      obtain ⟨hfresh, -, hnodes, hpreds, -⟩ := createTempGo_spec _ _ _ _ hct
      have htne : ¬ nodeOf t = p.exit := fun heq => hfresh (heq ▸ hexit)
      have hkey : alookup gT.preds (nodeOf t) = none := by
        rw [hpreds]
        exact alookup_none_of_keysSub hk hfresh
      have hlookup :
          alookup (gT.insertNode (nodeOf t) p.cond p.exit).preds (nodeOf t) =
            some [p.cond] := by
        show alookup (ainsert (ainsert (aeraseAt gT.preds p.exit p.cond)
          (nodeOf t) p.cond) p.exit (nodeOf t)) (nodeOf t) = some [p.cond]
        rw [alookup_ainsert, if_neg htne, alookup_ainsert, if_pos rfl,
          alookup_aeraseAt, if_neg htne, hkey]
        simp [uinsert]
      rw [if_neg]
      show ¬ ((alookup (gT.insertNode (nodeOf t) p.cond p.exit).preds
        (nodeOf t)).map List.length).getD 0 ≠ 1
      rw [hlookup]
      simp
  · cases h
    rename_i hcond
    rw [if_neg hcond]

theorem statseq_inn_idem {g : ControlFlowGraph}
    {p p1 : CFAStatementSequence} {g1 : ControlFlowGraph}
    (hk : KeysSubNodes g) (hexit : p.exit ∈ g.nodes)
    (h : p.insertNeededNode g = some (p1, g1)) :
    p1.insertNeededNode g1 = some (p1, g1) := by
  unfold CFAStatementSequence.insertNeededNode at h ⊢
  split at h
  · cases hct : g.createTemporaryNode with
    | none => rw [hct] at h; cases h
    | some tg =>
      rw [hct] at h
      obtain ⟨t, gT⟩ := tg
      cases h
      obtain ⟨hfresh, -, hnodes, hpreds, -⟩ := createTempGo_spec _ _ _ _ hct
      have htne : ¬ nodeOf t = p.exit := fun heq => hfresh (heq ▸ hexit)
      have hkey : alookup gT.preds (nodeOf t) = none := by
        rw [hpreds]
        exact alookup_none_of_keysSub hk hfresh
      have hlookup :
          alookup (gT.insertNode (nodeOf t) p.entry p.exit).preds (nodeOf t) =
            some [p.entry] := by
        show alookup (ainsert (ainsert (aeraseAt gT.preds p.exit p.entry)
          (nodeOf t) p.entry) p.exit (nodeOf t)) (nodeOf t) = some [p.entry]
        rw [alookup_ainsert, if_neg htne, alookup_ainsert, if_pos rfl,
          alookup_aeraseAt, if_neg htne, hkey]
        simp [uinsert]
      rw [if_neg]
      show ¬ ((alookup (gT.insertNode (nodeOf t) p.entry p.exit).preds
        (nodeOf t)).map List.length).getD 0 ≠ 1
      rw [hlookup]
      simp
  · cases h
    rename_i hcond
    rw [if_neg hcond]

theorem oneway_inn_idem {g : ControlFlowGraph}
    {p p1 : CFAOnewayConditional} {g1 : ControlFlowGraph}
    (hk : KeysSubNodes g) (hexit : p.exit ∈ g.nodes)
    (hcb : ¬ p.cond = p.body)
    (h : p.insertNeededNode g = some (p1, g1)) :
    p1.insertNeededNode g1 = some (p1, g1) := by
  unfold CFAOnewayConditional.insertNeededNode at h ⊢
  split at h
  · cases hct : g.createTemporaryNode with
    | none => rw [hct] at h; cases h
    | some tg =>
      rw [hct] at h
      obtain ⟨t, gT⟩ := tg
      cases h
      obtain ⟨hfresh, -, hnodes, hpreds, -⟩ := createTempGo_spec _ _ _ _ hct
      have htne : ¬ nodeOf t = p.exit := fun heq => hfresh (heq ▸ hexit)
      have hbc : ¬ p.body = p.cond := fun heq => hcb heq.symm
      have hkey : alookup gT.preds (nodeOf t) = none := by
        rw [hpreds]
        exact alookup_none_of_keysSub hk hfresh
      have hlookup :
          alookup ((gT.insertNode (nodeOf t) p.cond p.exit).insertNode
            (nodeOf t) p.body p.exit).preds (nodeOf t) =
            some [p.cond, p.body] := by
        show alookup
          (ainsert (ainsert (aeraseAt
            (ainsert (ainsert (aeraseAt gT.preds p.exit p.cond)
              (nodeOf t) p.cond) p.exit (nodeOf t))
            p.exit p.body) (nodeOf t) p.body) p.exit (nodeOf t))
          (nodeOf t) = some [p.cond, p.body]
        rw [alookup_ainsert, if_neg htne, alookup_ainsert, if_pos rfl,
          alookup_aeraseAt, if_neg htne, alookup_ainsert, if_neg htne,
          alookup_ainsert, if_pos rfl, alookup_aeraseAt, if_neg htne, hkey]
        simp [uinsert, hbc]
      rw [if_neg]
      show ¬ ((alookup ((gT.insertNode (nodeOf t) p.cond p.exit).insertNode
        (nodeOf t) p.body p.exit).preds (nodeOf t)).map List.length).getD 0 ≠ 2
      rw [hlookup]
      simp
  · cases h
    rename_i hcond
    rw [if_neg hcond]

theorem postcond_findFirst_exit_mem {g : ControlFlowGraph}
    {p : CFAPostconditionLoop} (hv : ValuesSubNodes g)
    (h : CFAPostconditionLoop.findFirst g = some p) : p.exit ∈ g.nodes := by
  obtain ⟨cond, hmem, htry⟩ := exists_of_findSome? h
  unfold CFAPostconditionLoop.tryAt at htry
  cases hcs : alookup g.succs cond with
  | none => rw [hcs] at htry; cases htry
  | some cs =>
    rw [hcs] at htry
    cases cs with
    | nil => cases htry
    | cons a cs1 =>
      cases cs1 with
      | nil => cases htry
      | cons b cs2 =>
        cases cs2 with
        | cons c r => cases htry
        | nil =>
          have hamem : a ∈ g.nodes :=
            hv.2 _ (alookup_mem hcs) a (by simp)
          have hbmem : b ∈ g.nodes :=
            hv.2 _ (alookup_mem hcs) b (by simp)
          have h2 : (if CFAPostconditionLoop.isValid g cond a = true then
              some (CFAPostconditionLoop.mk cond a)
            else if CFAPostconditionLoop.isValid g cond b = true then
              some (CFAPostconditionLoop.mk cond b)
            else none) = some p := htry
          split at h2
          · cases h2; exact hamem
          · split at h2
            · cases h2; exact hbmem
            · cases h2

theorem onewayret_findFirst_exit_mem {g : ControlFlowGraph}
    {p : CFAOnewayReturnConditional} (hv : ValuesSubNodes g)
    (h : CFAOnewayReturnConditional.findFirst g = some p) :
    p.exit ∈ g.nodes := by
  obtain ⟨cond, hmem, htry⟩ := exists_of_findSome? h
  unfold CFAOnewayReturnConditional.tryAt at htry
  cases hcs : alookup g.succs cond with
  | none => rw [hcs] at htry; cases htry
  | some cs =>
    rw [hcs] at htry
    cases cs with
    | nil => cases htry
    | cons a cs1 =>
      cases cs1 with
      | nil => cases htry
      | cons b cs2 =>
        cases cs2 with
        | cons c r => cases htry
        | nil =>
          have hamem : a ∈ g.nodes :=
            hv.2 _ (alookup_mem hcs) a (by simp)
          have hbmem : b ∈ g.nodes :=
            hv.2 _ (alookup_mem hcs) b (by simp)
          have h2 : (if CFAOnewayReturnConditional.isValid g cond a b = true
              then some (CFAOnewayReturnConditional.mk cond a b)
            else if CFAOnewayReturnConditional.isValid g cond b a = true then
              some (CFAOnewayReturnConditional.mk cond b a)
            else none) = some p := htry
          split at h2
          · cases h2; exact hbmem
          · split at h2
            · cases h2; exact hamem
            · cases h2

theorem statseq_findFirst_exit_mem {g : ControlFlowGraph}
    {p : CFAStatementSequence} (hv : ValuesSubNodes g)
    (h : CFAStatementSequence.findFirst g = some p) : p.exit ∈ g.nodes := by
  obtain ⟨en, hmem, htry⟩ := exists_of_findSome? h
  unfold CFAStatementSequence.tryAt at htry
  cases hcs : alookup g.succs en with
  | none => rw [hcs] at htry; cases htry
  | some cs =>
    rw [hcs] at htry
    cases cs with
    | nil => cases htry
    | cons e cs1 =>
      cases cs1 with
      | cons f r => cases htry
      | nil =>
        have hemem : e ∈ g.nodes :=
          hv.2 _ (alookup_mem hcs) e (by simp)
        have h2 : (if CFAStatementSequence.isValid g en e = true then
            some (CFAStatementSequence.mk en e) else none) = some p := htry
        split at h2
        · cases h2; exact hemem
        · cases h2

theorem oneway_isValid_cond_ne_body {g : ControlFlowGraph} {c b e : CFGNode}
    (h : CFAOnewayConditional.isValid g c b e = true) : ¬ c = b := by
  unfold CFAOnewayConditional.isValid at h
  simp only [Bool.and_eq_true, and_assoc] at h
  obtain ⟨-, -, -, -, -, h6, -, h8⟩ := h
  intro heq
  rw [heq] at h6
  cases hsc : alookup g.succs b with
  | none => rw [hsc] at h6; cases h6
  | some cs =>
    rw [hsc] at h6
    rw [hsc] at h8
    simp only [Bool.and_eq_true, and_assoc, beq_iff_eq] at h6 h8
    obtain ⟨h6a, -⟩ := h6
    obtain ⟨h8a, -⟩ := h8
    omega

theorem oneway_findFirst_props {g : ControlFlowGraph}
    {p : CFAOnewayConditional} (hv : ValuesSubNodes g)
    (h : CFAOnewayConditional.findFirst g = some p) :
    p.exit ∈ g.nodes ∧ ¬ p.cond = p.body := by
  obtain ⟨cond, hmem, htry⟩ := exists_of_findSome? h
  unfold CFAOnewayConditional.tryAt at htry
  cases hcs : alookup g.succs cond with
  | none => rw [hcs] at htry; cases htry
  | some cs =>
    rw [hcs] at htry
    cases cs with
    | nil => cases htry
    | cons a cs1 =>
      cases cs1 with
      | nil => cases htry
      | cons b cs2 =>
        cases cs2 with
        | cons c r => cases htry
        | nil =>
          have hamem : a ∈ g.nodes :=
            hv.2 _ (alookup_mem hcs) a (by simp)
          have hbmem : b ∈ g.nodes :=
            hv.2 _ (alookup_mem hcs) b (by simp)
          have h2 : (if CFAOnewayConditional.isValid g cond a b = true then
              some (CFAOnewayConditional.mk cond a b)
            else if CFAOnewayConditional.isValid g cond b a = true then
              some (CFAOnewayConditional.mk cond b a)
            else none) = some p := htry
          split at h2
          · rename_i hval
            cases h2
            exact ⟨hbmem, oneway_isValid_cond_ne_body hval⟩
          · split at h2
            · rename_i hval
              cases h2
              exact ⟨hamem, oneway_isValid_cond_ne_body hval⟩
            · cases h2

/-- C8: for every one of the six primitive variants, running
`insert_needed_node` a second time on the primitive returned by the first
run changes nothing: after a splice the fresh temporary's predecessor count
is already canonical (1 for the single-splice variants, 2 for the one-way
and two-way conditionals), so the second run's trigger is false; without a
splice the state is unchanged. -/
theorem claim_C8 (g : ControlFlowGraph)
    (hk : KeysSubNodes g) (hv : ValuesSubNodes g) (hn : AdjNodup g) :
    (∀ p p1 g1, CFAPreconditionLoop.findFirst g = some p →
      p.insertNeededNode g = some (p1, g1) →
      p1.insertNeededNode g1 = some (p1, g1)) ∧
    (∀ p p1 g1, CFATwowayConditional.findFirst g = some p →
      p.insertNeededNode g = some (p1, g1) →
      p1.insertNeededNode g1 = some (p1, g1)) ∧
    (∀ p p1 g1, CFAPostconditionLoop.findFirst g = some p →
      p.insertNeededNode g = some (p1, g1) →
      p1.insertNeededNode g1 = some (p1, g1)) ∧
    (∀ p p1 g1, CFAOnewayConditional.findFirst g = some p →
      p.insertNeededNode g = some (p1, g1) →
      p1.insertNeededNode g1 = some (p1, g1)) ∧
    (∀ p p1 g1, CFAOnewayReturnConditional.findFirst g = some p →
      p.insertNeededNode g = some (p1, g1) →
      p1.insertNeededNode g1 = some (p1, g1)) ∧
    (∀ p p1 g1, CFAStatementSequence.findFirst g = some p →
      p.insertNeededNode g = some (p1, g1) →
      p1.insertNeededNode g1 = some (p1, g1)) := by
  refine ⟨?_, ?_, ?_, ?_, ?_, ?_⟩
  · intro p p1 g1 hff hinn
    exact precond_inn_idem hk (precond_findFirst_exit_mem hv hff) hinn
  · intro p p1 g1 hff hinn
    obtain ⟨hexit, hab⟩ := twoway_findFirst_props hv hn hff
    exact twoway_inn_idem hk hexit hab hinn
  · intro p p1 g1 hff hinn
    exact postcond_inn_idem hk (postcond_findFirst_exit_mem hv hff) hinn
  · intro p p1 g1 hff hinn
    obtain ⟨hexit, hcb⟩ := oneway_findFirst_props hv hff
    exact oneway_inn_idem hk hexit hcb hinn
  · intro p p1 g1 hff hinn
    exact onewayret_inn_idem hk (onewayret_findFirst_exit_mem hv hff) hinn
  · intro p p1 g1 hff hinn
    exact statseq_inn_idem hk (statseq_findFirst_exit_mem hv hff) hinn

theorem adjNodup_of_lists {g : ControlFlowGraph}
    (h1 : ∀ pr ∈ g.preds, pr.2.Nodup) (h2 : ∀ pr ∈ g.succs, pr.2.Nodup) :
    AdjNodup g := by
  constructor
  · intro k
    unfold predsOf
    cases hlo : alookup g.preds k with
    | none => simp
    | some l => simpa using h1 _ (alookup_mem hlo)
  · intro k
    unfold succsOf
    cases hlo : alookup g.succs k with
    | none => simp
    | some l => simpa using h2 _ (alookup_mem hlo)

/-- Witness for C8 at the while-loop scenario (the trigger is false there:
the exit already has exactly one predecessor). -/
theorem claim_C8_witness :
    KeysSubNodes whileCFG ∧ ValuesSubNodes whileCFG ∧ AdjNodup whileCFG ∧
    CFAPreconditionLoop.findFirst whileCFG =
      some ⟨nodeOf nmB2, nodeOf nmB3, nodeOf nmB4⟩ ∧
    CFAPreconditionLoop.insertNeededNode
      ⟨nodeOf nmB2, nodeOf nmB3, nodeOf nmB4⟩ whileCFG =
      some (⟨nodeOf nmB2, nodeOf nmB3, nodeOf nmB4⟩, whileCFG) := by
  have hk : KeysSubNodes whileCFG := ⟨by decide, by decide⟩
  have hv : ValuesSubNodes whileCFG := ⟨by decide, by decide⟩
  have hn : AdjNodup whileCFG := adjNodup_of_lists (by decide) (by decide)
  have hff : CFAPreconditionLoop.findFirst whileCFG =
      some ⟨nodeOf nmB2, nodeOf nmB3, nodeOf nmB4⟩ := rfl
  have hinn : CFAPreconditionLoop.insertNeededNode
      ⟨nodeOf nmB2, nodeOf nmB3, nodeOf nmB4⟩ whileCFG =
      some (⟨nodeOf nmB2, nodeOf nmB3, nodeOf nmB4⟩, whileCFG) := rfl
  exact ⟨hk, hv, hn, hff,
    (claim_C8 whileCFG hk hv hn).1 _ _ _ hff hinn⟩

/-! ### Adjacency consistency (C6) -/

theorem getD_ainsert (m : AdjMap) (k x w : CFGNode) :
    (alookup (ainsert m k x) w).getD [] =
      if w = k then uinsert ((alookup m k).getD []) x
      else (alookup m w).getD [] := by
  rw [alookup_ainsert]
  by_cases h : w = k <;> simp [h]

theorem getD_aeraseAt (m : AdjMap) (k x w : CFGNode) :
    (alookup (aeraseAt m k x) w).getD [] =
      if w = k then ((alookup m k).getD []).erase x
      else (alookup m w).getD [] := by
  rw [alookup_aeraseAt]
  by_cases h : w = k
  · rw [if_pos h, if_pos h]
    cases alookup m k <;> simp
  · rw [if_neg h, if_neg h]

theorem getD_removeMap (m : AdjMap) (n w : CFGNode) :
    (alookup (aeraseAll (aremoveKey m n) n) w).getD [] =
      if w = n then [] else ((alookup m w).getD []).erase n := by
  rw [alookup_aeraseAll, alookup_aremoveKey]
  by_cases h : w = n
  · simp [h]
  · rw [if_neg h, if_neg h]
    cases alookup m w <;> simp

theorem succsOf_addEdge (g : ControlFlowGraph) (u v w : CFGNode) :
    succsOf (g.addEdge u v) w =
      if w = u then uinsert (succsOf g u) v else succsOf g w :=
  getD_ainsert g.succs u v w

theorem predsOf_addEdge (g : ControlFlowGraph) (u v w : CFGNode) :
    predsOf (g.addEdge u v) w =
      if w = v then uinsert (predsOf g v) u else predsOf g w :=
  getD_ainsert g.preds v u w

theorem succsOf_removeNode (g : ControlFlowGraph) (n w : CFGNode) :
    succsOf (g.removeNode n) w =
      if w = n then [] else (succsOf g w).erase n :=
  getD_removeMap g.succs n w

theorem predsOf_removeNode (g : ControlFlowGraph) (n w : CFGNode) :
    predsOf (g.removeNode n) w =
      if w = n then [] else (predsOf g w).erase n :=
  getD_removeMap g.preds n w

theorem consistent_addEdge (g : ControlFlowGraph) (u v : CFGNode)
    (h : Consistent g) : Consistent (g.addEdge u v) := by
  intro x y
  rw [succsOf_addEdge, predsOf_addEdge]
  by_cases hx : x = u
  · subst hx
    by_cases hy : y = v
    · subst hy
      rw [if_pos rfl, if_pos rfl, mem_uinsert, mem_uinsert]
      exact ⟨fun _ => Or.inr rfl, fun _ => Or.inr rfl⟩
    · rw [if_pos rfl, if_neg hy, mem_uinsert]
      constructor
      · rintro (hm | rfl)
        · exact (h _ _).1 hm
        · exact absurd rfl hy
      · intro hm
        exact Or.inl ((h _ _).2 hm)
  · by_cases hy : y = v
    · subst hy
      rw [if_neg hx, if_pos rfl, mem_uinsert]
      constructor
      · intro hm
        exact Or.inl ((h _ _).1 hm)
      · rintro (hm | rfl)
        · exact (h _ _).2 hm
        · exact absurd rfl hx
    · rw [if_neg hx, if_neg hy]
      exact h x y

theorem nodup_addEdge (g : ControlFlowGraph) (u v : CFGNode)
    (hn : AdjNodup g) : AdjNodup (g.addEdge u v) := by
  constructor
  · intro k
    rw [predsOf_addEdge]
    split
    · exact nodup_uinsert (hn.1 v)
    · exact hn.1 k
  · intro k
    rw [succsOf_addEdge]
    split
    · exact nodup_uinsert (hn.2 u)
    · exact hn.2 k

theorem consistent_removeNode (g : ControlFlowGraph) (n : CFGNode)
    (hc : Consistent g) (hn : AdjNodup g) : Consistent (g.removeNode n) := by
  intro x y
  rw [succsOf_removeNode, predsOf_removeNode]
  by_cases hx : x = n
  · subst hx
    rw [if_pos rfl]
    constructor
    · intro hh
      cases hh
    · intro hy2
      split at hy2
      · cases hy2
      · exact absurd hy2 (by
          rw [(hn.1 y).mem_erase_iff]
          rintro ⟨hne, -⟩
          exact hne rfl)
  · rw [if_neg hx]
    by_cases hy : y = n
    · subst hy
      rw [if_pos rfl]
      constructor
      · intro hy2
        exact absurd hy2 (by
          rw [(hn.2 x).mem_erase_iff]
          rintro ⟨hne, -⟩
          exact hne rfl)
      · intro hh
        cases hh
    · rw [if_neg hy, (hn.2 x).mem_erase_iff, (hn.1 y).mem_erase_iff]
      constructor
      · rintro ⟨-, hm⟩
        exact ⟨hx, (hc _ _).1 hm⟩
      · rintro ⟨-, hm⟩
        exact ⟨hy, (hc _ _).2 hm⟩

theorem nodup_removeNode (g : ControlFlowGraph) (n : CFGNode)
    (hn : AdjNodup g) : AdjNodup (g.removeNode n) := by
  constructor
  · intro k
    rw [predsOf_removeNode]
    split
    · exact List.nodup_nil
    · exact (hn.1 k).erase n
  · intro k
    rw [succsOf_removeNode]
    split
    · exact List.nodup_nil
    · exact (hn.2 k).erase n

theorem insertNode_eq (g : ControlFlowGraph) (n a b : CFGNode) :
    g.insertNode n a b =
      (({ g with succs := aeraseAt g.succs a b,
                 preds := aeraseAt g.preds b a } :
          ControlFlowGraph).addEdge a n).addEdge n b := rfl

theorem succsOf_insertMid (g : ControlFlowGraph) (a b w : CFGNode) :
    succsOf ({ g with succs := aeraseAt g.succs a b,
                      preds := aeraseAt g.preds b a } : ControlFlowGraph) w =
      if w = a then (succsOf g a).erase b else succsOf g w :=
  getD_aeraseAt g.succs a b w

theorem predsOf_insertMid (g : ControlFlowGraph) (a b w : CFGNode) :
    predsOf ({ g with succs := aeraseAt g.succs a b,
                      preds := aeraseAt g.preds b a } : ControlFlowGraph) w =
      if w = b then (predsOf g b).erase a else predsOf g w :=
  getD_aeraseAt g.preds b a w

theorem consistent_insertMid (g : ControlFlowGraph) (a b : CFGNode)
    (hc : Consistent g) (hn : AdjNodup g) :
    Consistent ({ g with succs := aeraseAt g.succs a b,
                         preds := aeraseAt g.preds b a } :
      ControlFlowGraph) := by
  intro x y
  rw [succsOf_insertMid, predsOf_insertMid]
  by_cases hx : x = a
  · subst hx
    rw [if_pos rfl, (hn.2 x).mem_erase_iff]
    by_cases hy : y = b
    · subst hy
      rw [if_pos rfl, (hn.1 y).mem_erase_iff]
      constructor
      · rintro ⟨hne, -⟩
        exact absurd rfl hne
      · rintro ⟨hne, -⟩
        exact absurd rfl hne
    · rw [if_neg hy]
      constructor
      · rintro ⟨-, hm⟩
        exact (hc _ _).1 hm
      · intro hm
        exact ⟨hy, (hc _ _).2 hm⟩
  · rw [if_neg hx]
    by_cases hy : y = b
    · subst hy
      rw [if_pos rfl, (hn.1 y).mem_erase_iff]
      constructor
      · intro hm
        exact ⟨hx, (hc _ _).1 hm⟩
      · rintro ⟨-, hm⟩
        exact (hc _ _).2 hm
    · rw [if_neg hy]
      exact hc x y

theorem nodup_insertMid (g : ControlFlowGraph) (a b : CFGNode)
    (hn : AdjNodup g) :
    AdjNodup ({ g with succs := aeraseAt g.succs a b,
                       preds := aeraseAt g.preds b a } :
      ControlFlowGraph) := by
  constructor
  · intro k
    rw [predsOf_insertMid]
    split
    · exact (hn.1 b).erase a
    · exact hn.1 k
  · intro k
    rw [succsOf_insertMid]
    split
    · exact (hn.2 a).erase b
    · exact hn.2 k

theorem applyOp_preserves (op : CFGOp) (g : ControlFlowGraph)
    (hc : Consistent g) (hn : AdjNodup g) :
    Consistent (applyOp g op) ∧ AdjNodup (applyOp g op) := by
  cases op with
  | addEdge u v =>
    exact ⟨consistent_addEdge g u v hc, nodup_addEdge g u v hn⟩
  | removeNode n =>
    exact ⟨consistent_removeNode g n hc hn, nodup_removeNode g n hn⟩
  | insertNode n a b =>
    show Consistent (g.insertNode n a b) ∧ AdjNodup (g.insertNode n a b)
    rw [insertNode_eq]
    have hcm := consistent_insertMid g a b hc hn
    have hnm := nodup_insertMid g a b hn
    exact ⟨consistent_addEdge _ _ _ (consistent_addEdge _ _ _ hcm),
           nodup_addEdge _ _ _ (nodup_addEdge _ _ _ hnm)⟩

/-- C6: the adjacency maps stay mutually consistent (`v ∈ succs[u]` iff
`u ∈ preds[v]`) under every sequence of `add_edge`, `remove_node` and
`insert_node` operations applied to a consistent graph with duplicate-free
adjacency lists. -/
theorem claim_C6 (ops : List CFGOp) (g : ControlFlowGraph)
    (hc : Consistent g) (hn : AdjNodup g) :
    Consistent (applyOps g ops) := by
  have main : ∀ (l : List CFGOp) (g2 : ControlFlowGraph),
      Consistent g2 → AdjNodup g2 →
      Consistent (applyOps g2 l) ∧ AdjNodup (applyOps g2 l) := by
    intro l
    induction l with
    | nil => intro g2 h1 h2; exact ⟨h1, h2⟩
    | cons op rest ih =>
      intro g2 h1 h2
      have hstep := applyOp_preserves op g2 h1 h2
      exact ih _ hstep.1 hstep.2
  exact (main ops g hc hn).1

/-- Witness for C6: a concrete operation sequence on the empty graph. -/
theorem claim_C6_witness :
    Consistent defaultCFG ∧ AdjNodup defaultCFG ∧
    Consistent (applyOps defaultCFG
      [CFGOp.addEdge (nodeOf nmB1) (nodeOf nmB2),
       CFGOp.insertNode (nodeOf nmB3) (nodeOf nmB1) (nodeOf nmB2),
       CFGOp.removeNode (nodeOf nmB2)]) := by
  have hC : Consistent defaultCFG := by
    intro u v
    simp [succsOf, predsOf, defaultCFG, alookup]
  have hN : AdjNodup defaultCFG :=
    ⟨fun k => by simp [predsOf, defaultCFG, alookup],
     fun k => by simp [succsOf, defaultCFG, alookup]⟩
  exact ⟨hC, hN, claim_C6 _ _ hC hN⟩

/-! ### C4: characterization of the merge step -/

theorem nodes_entryUpdate (c : Prop) [inst : Decidable c]
    (h : ControlFlowGraph) (N : CFGNode) :
    (if c then { h with entry := N } else h).nodes = h.nodes := by
  split <;> rfl

theorem succsOf_entryUpdate (c : Prop) [inst : Decidable c]
    (h : ControlFlowGraph) (N w : CFGNode) :
    succsOf (if c then { h with entry := N } else h) w = succsOf h w := by
  split <;> rfl

theorem removeFold_nodes (L : List CFGNode) :
    ∀ (g : ControlFlowGraph), g.nodes.Nodup →
      (∀ x, x ∈ (L.foldl (fun g2 n => g2.removeNode n) g).nodes ↔
        x ∈ g.nodes ∧ x ∉ L) ∧
      (L.foldl (fun g2 n => g2.removeNode n) g).nodes.Nodup := by
  induction L with
  | nil => intro g hnd; exact ⟨fun x => by simp, hnd⟩
  | cons n rest ih =>
    intro g hnd
    have hstep : (g.removeNode n).nodes = g.nodes.erase n := rfl
    have hnd2 : (g.removeNode n).nodes.Nodup := by
      rw [hstep]; exact hnd.erase n
    obtain ⟨hmem, hnd3⟩ := ih (g.removeNode n) hnd2
    refine ⟨fun x => ?_, hnd3⟩
    rw [List.foldl_cons, hmem x, hstep, List.Nodup.mem_erase_iff hnd]
    simp only [List.mem_cons]
    tauto

theorem mem_addEdge_nodes (g : ControlFlowGraph) (u v x : CFGNode) :
    x ∈ (g.addEdge u v).nodes ↔ x ∈ g.nodes ∨ x = u ∨ x = v := by
  show x ∈ uinsert (uinsert g.nodes u) v ↔ _
  rw [mem_uinsert, mem_uinsert]
  tauto

theorem predsFold_nodes (L : List CFGNode) (N : CFGNode)
    (ps : List CFGNode) :
    ∀ (g : ControlFlowGraph) (x : CFGNode),
      x ∈ (ps.foldl (fun g3 p2 =>
          if p2 ∈ L then g3 else g3.addEdge p2 N) g).nodes ↔
        x ∈ g.nodes ∨ ∃ q, q ∈ ps ∧ q ∉ L ∧ (x = q ∨ x = N) := by
  induction ps with
  | nil => intro g x; simp
  | cons q0 rest ih =>
    intro g x
    rw [List.foldl_cons]
    by_cases hq0 : q0 ∈ L
    · rw [if_pos hq0, ih]
      constructor
      · rintro (hx | ⟨q2, hq2, hnl, hxor⟩)
        · exact Or.inl hx
        · exact Or.inr ⟨q2, List.mem_cons_of_mem _ hq2, hnl, hxor⟩
      · rintro (hx | ⟨q2, hq2, hnl, hxor⟩)
        · exact Or.inl hx
        · rcases List.mem_cons.1 hq2 with rfl | hq2r
          · exact absurd hq0 hnl
          · exact Or.inr ⟨q2, hq2r, hnl, hxor⟩
    · rw [if_neg hq0, ih, mem_addEdge_nodes]
      constructor
      · rintro ((hx | rfl | rfl) | ⟨q2, hq2, hnl, hxor⟩)
        · exact Or.inl hx
        · exact Or.inr ⟨x, List.mem_cons_self _ _, hq0, Or.inl rfl⟩
        · exact Or.inr ⟨q0, List.mem_cons_self _ _, hq0, Or.inr rfl⟩
        · exact Or.inr ⟨q2, List.mem_cons_of_mem _ hq2, hnl, hxor⟩
      · rintro (hx | ⟨q2, hq2, hnl, hxor⟩)
        · exact Or.inl (Or.inl hx)
        · rcases List.mem_cons.1 hq2 with rfl | hq2r
          · rcases hxor with rfl | rfl
            · exact Or.inl (Or.inr (Or.inl rfl))
            · exact Or.inl (Or.inr (Or.inr rfl))
          · exact Or.inr ⟨q2, hq2r, hnl, hxor⟩

theorem succsFold_nodes (L : List CFGNode) (N : CFGNode)
    (ss : List CFGNode) :
    ∀ (g : ControlFlowGraph) (x : CFGNode),
      x ∈ (ss.foldl (fun g4 s =>
          if s ∈ L then g4 else g4.addEdge N s) g).nodes ↔
        x ∈ g.nodes ∨ ∃ s, s ∈ ss ∧ s ∉ L ∧ (x = N ∨ x = s) := by
  induction ss with
  | nil => intro g x; simp
  | cons s0 rest ih =>
    intro g x
    rw [List.foldl_cons]
    by_cases hs0 : s0 ∈ L
    · rw [if_pos hs0, ih]
      constructor
      · rintro (hx | ⟨s2, hs2, hnl, hxor⟩)
        · exact Or.inl hx
        · exact Or.inr ⟨s2, List.mem_cons_of_mem _ hs2, hnl, hxor⟩
      · rintro (hx | ⟨s2, hs2, hnl, hxor⟩)
        · exact Or.inl hx
        · rcases List.mem_cons.1 hs2 with rfl | hs2r
          · exact absurd hs0 hnl
          · exact Or.inr ⟨s2, hs2r, hnl, hxor⟩
    · rw [if_neg hs0, ih, mem_addEdge_nodes]
      constructor
      · rintro ((hx | rfl | rfl) | ⟨s2, hs2, hnl, hxor⟩)
        · exact Or.inl hx
        · exact Or.inr ⟨s0, List.mem_cons_self _ _, hs0, Or.inl rfl⟩
        · exact Or.inr ⟨x, List.mem_cons_self _ _, hs0, Or.inr rfl⟩
        · exact Or.inr ⟨s2, List.mem_cons_of_mem _ hs2, hnl, hxor⟩
      · rintro (hx | ⟨s2, hs2, hnl, hxor⟩)
        · exact Or.inl (Or.inl hx)
        · rcases List.mem_cons.1 hs2 with rfl | hs2r
          · rcases hxor with rfl | rfl
            · exact Or.inl (Or.inr (Or.inl rfl))
            · exact Or.inl (Or.inr (Or.inr rfl))
          · exact Or.inr ⟨s2, hs2r, hnl, hxor⟩

theorem succsOf_addEdge_mono (g : ControlFlowGraph) (u v w y : CFGNode)
    (h : y ∈ succsOf g w) : y ∈ succsOf (g.addEdge u v) w := by
  rw [succsOf_addEdge]
  split
  · rename_i hw
    subst hw
    exact mem_uinsert.2 (Or.inl h)
  · exact h

theorem predsFold_succsOf_mono (L : List CFGNode) (N : CFGNode)
    (ps : List CFGNode) :
    ∀ (g : ControlFlowGraph) (w y : CFGNode), y ∈ succsOf g w →
      y ∈ succsOf (ps.foldl (fun g3 p2 =>
        if p2 ∈ L then g3 else g3.addEdge p2 N) g) w := by
  induction ps with
  | nil => intro g w y h; exact h
  | cons q0 rest ih =>
    intro g w y h
    rw [List.foldl_cons]
    by_cases hq0 : q0 ∈ L
    · rw [if_pos hq0]; exact ih g w y h
    · rw [if_neg hq0]; exact ih _ w y (succsOf_addEdge_mono g q0 N w y h)

theorem succsFold_succsOf_mono (L : List CFGNode) (N : CFGNode)
    (ss : List CFGNode) :
    ∀ (g : ControlFlowGraph) (w y : CFGNode), y ∈ succsOf g w →
      y ∈ succsOf (ss.foldl (fun g4 s =>
        if s ∈ L then g4 else g4.addEdge N s) g) w := by
  induction ss with
  | nil => intro g w y h; exact h
  | cons s0 rest ih =>
    intro g w y h
    rw [List.foldl_cons]
    by_cases hs0 : s0 ∈ L
    · rw [if_pos hs0]; exact ih g w y h
    · rw [if_neg hs0]; exact ih _ w y (succsOf_addEdge_mono g N s0 w y h)

theorem predsFold_adds (L : List CFGNode) (N : CFGNode)
    (ps : List CFGNode) :
    ∀ (g : ControlFlowGraph) (q : CFGNode), q ∈ ps → q ∉ L →
      N ∈ succsOf (ps.foldl (fun g3 p2 =>
        if p2 ∈ L then g3 else g3.addEdge p2 N) g) q := by
  induction ps with
  | nil => intro g q h hnl; simp at h
  | cons q0 rest ih =>
    intro g q hmem hnl
    rw [List.foldl_cons]
    rcases List.mem_cons.1 hmem with rfl | hr
    · rw [if_neg hnl]
      apply predsFold_succsOf_mono
      rw [succsOf_addEdge, if_pos rfl]
      exact mem_uinsert.2 (Or.inr rfl)
    · by_cases hq0 : q0 ∈ L
      · rw [if_pos hq0]; exact ih g q hr hnl
      · rw [if_neg hq0]; exact ih _ q hr hnl

theorem succsFold_adds (L : List CFGNode) (N : CFGNode)
    (ss : List CFGNode) :
    ∀ (g : ControlFlowGraph) (s : CFGNode), s ∈ ss → s ∉ L →
      s ∈ succsOf (ss.foldl (fun g4 s2 =>
        if s2 ∈ L then g4 else g4.addEdge N s2) g) N := by
  induction ss with
  | nil => intro g s h hnl; simp at h
  | cons s0 rest ih =>
    intro g s hmem hnl
    rw [List.foldl_cons]
    rcases List.mem_cons.1 hmem with rfl | hr
    · rw [if_neg hnl]
      apply succsFold_succsOf_mono
      rw [succsOf_addEdge, if_pos rfl]
      exact mem_uinsert.2 (Or.inr rfl)
    · by_cases hs0 : s0 ∈ L
      · rw [if_pos hs0]; exact ih g s hr hnl
      · rw [if_neg hs0]; exact ih _ s hr hnl

theorem mergeCore_nodes_mem (p : CFAPrim) (g : ControlFlowGraph)
    (hnd : g.nodes.Nodup) (hv : ValuesSubNodes g) (x : CFGNode) :
    x ∈ (p.mergeCore g).nodes ↔
      (x ∈ g.nodes ∧ x ∉ p.nodesList) ∨
      (x = CFGNode.mk p.entry.from_pred p.exit.to_succ ∧
        ((∃ q, q ∈ predsOf g p.entry ∧ q ∉ p.nodesList) ∨
         (∃ s, s ∈ succsOf g p.exit ∧ s ∉ p.nodesList))) := by
  unfold CFAPrim.mergeCore
  simp only
  rw [nodes_entryUpdate]
  cases hps : alookup g.preds (CFAPrim.entry p) with
  | none =>
    have hp0 : predsOf g (CFAPrim.entry p) = [] := by
      unfold predsOf; rw [hps]; rfl
    cases hss : alookup g.succs (CFAPrim.exit p) with
    | none =>
      have hs0 : succsOf g (CFAPrim.exit p) = [] := by
        unfold succsOf; rw [hss]; rfl
      simp only [hps, hss]
      rw [(removeFold_nodes p.nodesList g hnd).1 x, hp0, hs0]
      simp
    | some ss =>
      have hseq : succsOf g (CFAPrim.exit p) = ss := by
        unfold succsOf; rw [hss]; rfl
      have hvs : ∀ s, s ∈ ss → s ∈ g.nodes :=
        fun s hs => hv.2 _ (alookup_mem hss) s hs
      simp only [hps, hss]
      rw [succsFold_nodes, (removeFold_nodes p.nodesList g hnd).1 x, hp0,
        hseq]
      constructor
      · rintro (h1 | ⟨s, hs, hnl, rfl | rfl⟩)
        · exact Or.inl h1
        · exact Or.inr ⟨rfl, Or.inr ⟨s, hs, hnl⟩⟩
        · exact Or.inl ⟨hvs _ hs, hnl⟩
      · rintro (h1 | ⟨rfl, ⟨q, hq, hnlq⟩ | ⟨s, hs, hnl⟩⟩)
        · exact Or.inl h1
        · simp at hq
        · exact Or.inr ⟨s, hs, hnl, Or.inl rfl⟩
  | some ps =>
    have hpeq : predsOf g (CFAPrim.entry p) = ps := by
      unfold predsOf; rw [hps]; rfl
    have hvp : ∀ q, q ∈ ps → q ∈ g.nodes :=
      fun q hq => hv.1 _ (alookup_mem hps) q hq
    cases hss : alookup g.succs (CFAPrim.exit p) with
    | none =>
      have hs0 : succsOf g (CFAPrim.exit p) = [] := by
        unfold succsOf; rw [hss]; rfl
      simp only [hps, hss]
      rw [predsFold_nodes, (removeFold_nodes p.nodesList g hnd).1 x, hpeq,
        hs0]
      constructor
      · rintro (h1 | ⟨q, hq, hnl, rfl | rfl⟩)
        · exact Or.inl h1
        · exact Or.inl ⟨hvp _ hq, hnl⟩
        · exact Or.inr ⟨rfl, Or.inl ⟨q, hq, hnl⟩⟩
      · rintro (h1 | ⟨rfl, ⟨q, hq, hnl⟩ | ⟨s, hs, hnls⟩⟩)
        · exact Or.inl h1
        · exact Or.inr ⟨q, hq, hnl, Or.inr rfl⟩
        · simp at hs
    | some ss =>
      have hseq : succsOf g (CFAPrim.exit p) = ss := by
        unfold succsOf; rw [hss]; rfl
      have hvs : ∀ s, s ∈ ss → s ∈ g.nodes :=
        fun s hs => hv.2 _ (alookup_mem hss) s hs
      simp only [hps, hss]
      rw [succsFold_nodes, predsFold_nodes,
        (removeFold_nodes p.nodesList g hnd).1 x, hpeq, hseq]
      constructor
      · rintro ((h1 | ⟨q, hq, hnl, rfl | rfl⟩) | ⟨s, hs, hnls, rfl | rfl⟩)
        · exact Or.inl h1
        · exact Or.inl ⟨hvp _ hq, hnl⟩
        · exact Or.inr ⟨rfl, Or.inl ⟨q, hq, hnl⟩⟩
        · exact Or.inr ⟨rfl, Or.inr ⟨s, hs, hnls⟩⟩
        · exact Or.inl ⟨hvs _ hs, hnls⟩
      · rintro (h1 | ⟨rfl, ⟨q, hq, hnl⟩ | ⟨s, hs, hnls⟩⟩)
        · exact Or.inl (Or.inl h1)
        · exact Or.inl (Or.inr ⟨q, hq, hnl, Or.inr rfl⟩)
        · exact Or.inr ⟨s, hs, hnls, Or.inl rfl⟩

theorem mergeCore_pred_edge (p : CFAPrim) (g : ControlFlowGraph)
    (q : CFGNode) (hq : q ∈ predsOf g p.entry) (hnl : q ∉ p.nodesList) :
    CFGNode.mk p.entry.from_pred p.exit.to_succ ∈
      succsOf (p.mergeCore g) q := by
  unfold CFAPrim.mergeCore
  simp only
  rw [succsOf_entryUpdate]
  cases hps : alookup g.preds (CFAPrim.entry p) with
  | none =>
    unfold predsOf at hq
    rw [hps] at hq
    simp at hq
  | some ps =>
    have hq2 : q ∈ ps := by
      unfold predsOf at hq; rw [hps] at hq; simpa using hq
    cases hss : alookup g.succs (CFAPrim.exit p) with
    | none =>
      simp only [hps, hss]
      exact predsFold_adds _ _ _ _ q hq2 hnl
    | some ss =>
      simp only [hps, hss]
      exact succsFold_succsOf_mono _ _ _ _ _ _
        (predsFold_adds _ _ _ _ q hq2 hnl)

theorem mergeCore_succ_edge (p : CFAPrim) (g : ControlFlowGraph)
    (s : CFGNode) (hs : s ∈ succsOf g p.exit) (hnl : s ∉ p.nodesList) :
    s ∈ succsOf (p.mergeCore g)
      (CFGNode.mk p.entry.from_pred p.exit.to_succ) := by
  unfold CFAPrim.mergeCore
  simp only
  rw [succsOf_entryUpdate]
  cases hss : alookup g.succs (CFAPrim.exit p) with
  | none =>
    unfold succsOf at hs
    rw [hss] at hs
    simp at hs
  | some ss =>
    have hs2 : s ∈ ss := by
      unfold succsOf at hs; rw [hss] at hs; simpa using hs
    cases hps : alookup g.preds (CFAPrim.entry p) with
    | none =>
      simp only [hps, hss]
      exact succsFold_adds _ _ _ _ s hs2 hnl
    | some ps =>
      simp only [hps, hss]
      exact succsFold_adds _ _ _ _ s hs2 hnl

/-- C4 (amended): on a duplicate-free graph whose adjacency values are
registered nodes, the merge step removes exactly the primitive's constituent
nodes; the meta-node `N = CFGNode(entry.from_pred, exit.to_succ)` is present
afterwards iff some former predecessor of the entry or former successor of
the exit is external (it enters the node set only through `add_edge`); an
edge `q → N` is added for every external former predecessor `q` of the
entry and an edge `N → s` for every external former successor `s` of the
exit; and the CFG entry becomes `N` iff the primitive's entry was the CFG
entry.  The claim's unconditional "adds a single new node N" is refuted by
`claim_C4_cex`. -/
theorem claim_C4 (p : CFAPrim) (g : ControlFlowGraph)
    (hnd : g.nodes.Nodup) (hv : ValuesSubNodes g) :
    (∀ x, x ∈ (p.mergeCore g).nodes ↔
      (x ∈ g.nodes ∧ x ∉ p.nodesList) ∨
      (x = CFGNode.mk p.entry.from_pred p.exit.to_succ ∧
        ((∃ q, q ∈ predsOf g p.entry ∧ q ∉ p.nodesList) ∨
         (∃ s, s ∈ succsOf g p.exit ∧ s ∉ p.nodesList)))) ∧
    (∀ q, q ∈ predsOf g p.entry → q ∉ p.nodesList →
      CFGNode.mk p.entry.from_pred p.exit.to_succ ∈
        succsOf (p.mergeCore g) q) ∧
    (∀ s, s ∈ succsOf g p.exit → s ∉ p.nodesList →
      s ∈ succsOf (p.mergeCore g)
        (CFGNode.mk p.entry.from_pred p.exit.to_succ)) ∧
    (p.mergeCore g).entry =
      (if p.entry = g.entry then CFGNode.mk p.entry.from_pred p.exit.to_succ
       else g.entry) :=
  ⟨mergeCore_nodes_mem p g hnd hv,
   fun q hq hnl => mergeCore_pred_edge p g q hq hnl,
   fun s hs hnl => mergeCore_succ_edge p g s hs hnl,
   mergeCore_entry p g⟩

/-- Witness for C4: the first statement-sequence merge of the linear
scenario; `b3` is an external successor of the primitive's exit `b2`, so the
meta-node `(b1, b2)` is added together with the edge `(b1,b2) → b3`. -/
theorem claim_C4_witness :
    linearCFG.nodes.Nodup ∧ ValuesSubNodes linearCFG ∧
    nodeOf nmB3 ∈ succsOf linearCFG (nodeOf nmB2) ∧
    nodeOf nmB3 ∉
      CFAPrim.nodesList
        (.statementSequence ⟨nodeOf nmB1, nodeOf nmB2⟩) ∧
    nodeOf nmB3 ∈ succsOf
      ((CFAPrim.statementSequence
          ⟨nodeOf nmB1, nodeOf nmB2⟩).mergeCore linearCFG)
      (CFGNode.mk nmB1 nmB2) := by
  have hnd : linearCFG.nodes.Nodup := by decide
  have hv : ValuesSubNodes linearCFG := ⟨by decide, by decide⟩
  refine ⟨hnd, hv, by decide, by decide, ?_⟩
  exact (claim_C4 (.statementSequence ⟨nodeOf nmB1, nodeOf nmB2⟩)
    linearCFG hnd hv).2.2.1 (nodeOf nmB3) (by decide) (by decide)

/-- Counterexample for C4 as stated: on the intermediate linear graph the
driver picks the final statement sequence, its fix-up changes nothing, and
the merge leaves an empty node set — no new node `N = (b1, b3)` is added,
because `add_edge` is the only way `N` enters the node set and there are no
external edges left. -/
theorem claim_C4_cex :
    CFAPrim.findFirst linearMidCFG = some linearMidPrim ∧
    CFAPrim.insertNeededNode linearMidPrim linearMidCFG =
      some (linearMidPrim, linearMidCFG) ∧
    (linearMidPrim.mergeCore linearMidCFG).nodes = [] ∧
    CFGNode.mk nmB1 nmB3 ∉ (linearMidPrim.mergeCore linearMidCFG).nodes := by
  refine ⟨?_, ?_, ?_, ?_⟩ <;> decide

/-- C3: the recursive dominance check has no failing base case and never
inspects its `to` argument: `dominates(through, to)` evaluates to `true`
for every graph and every pair of nodes. -/
theorem claim_C3 (g : ControlFlowGraph) (through to_ : CFGNode) :
    g.dominates through to_ = true := by
  unfold ControlFlowGraph.dominates
  split
  · rfl
  · apply dominatesInner_true
    have hle : unvisitedCount g ([] ++ [g.entry]) ≤
        (succVals g).dedup.length := List.length_filter_le _ _
    unfold domFuel
    omega

end Decomp
